import Mathlib

/-!
# Verification of `scripts/platformio/install-deps.py`

A shallow embedding of the dependency-installation script.  Pure helpers
(`is_commit_hash`, `is_project_required`, `prepare_package_url`) become Lean
functions; the effectful parts (`clone_repository`, `install_from_remote`,
`process_bundled_projects`, `clean_up`, `save_state`, `main`) are modelled by
explicit state passing over a `World` (the directories that exist plus the
parsed contents of the state file) together with an event trace recording
every filesystem mutation, git invocation and log line.  External git
processes are abstracted by an oracle `GitOracle` deciding whether a given
command (with optional working directory) succeeds.  Python exceptions are
modelled with `Except PyErr`; effects performed before an exception is raised
are kept in the returned world/trace, matching the script's top-level
`except Exception` handler which exits 1 without undoing them.

Modelling conventions:
* paths are plain strings, `os.path.join a b` is `a ++ "/" ++ b`;
* `os.makedirs` records only the target directory (no claim below depends on
  implicitly created parent directories);
* `shutil.rmtree` always succeeds (the `OSError` fallback of `clean_up` is
  not exercised by any claim);
* the script runs on a non-Windows host, so `to_unix_path` is the identity
  and `IS_WINDOWS` is `false`;
* the module-level `VERBOSE` flag is `False` and is never assigned anywhere
  in the script, so it is embedded as the constant `false`.
-/

set_option autoImplicit false

namespace InstallDeps

/-- Python exceptions that the script can raise. -/
inductive PyErr where
  | keyError
  | attributeError
  | assertionError
  | typeError
  deriving DecidableEq, Repr

abbrev Path := String

/-- Observable effects of a run: directory creation/removal, git commands,
state-file writes, and log lines (stdout/stderr prints). -/
inductive Event where
  | mkdir (p : Path)
  | rmtree (p : Path)
  | runGit (args : List String) (cwd : Option Path)
  | saveState (data : List (String × String))
  | note (msg : String)
  deriving DecidableEq, Repr

/-- The parts of the filesystem the script inspects or mutates: the set of
existing directories and the (parsed) contents of `state.json` if present. -/
structure World where
  dirs : List Path
  stateFile : Option (List (String × String))
  deriving DecidableEq, Repr

/-- `IS_WINDOWS`: the embedding models a non-Windows host. -/
def IS_WINDOWS : Bool := false

/-- `VERBOSE = False`; the script never assigns it anywhere, so it is a
constant. -/
def VERBOSE : Bool := false

/-- `d` lies inside the tree rooted at `p` (it is `p` itself or has `p ++ "/"`
as a prefix); this is what `shutil.rmtree p` removes. -/
def underDir (p d : Path) : Bool :=
  d == p || (p ++ "/").data.isPrefixOf d.data

/-- `os.makedirs` (parents are not tracked, see the module docstring). -/
def World.addDir (w : World) (p : Path) : World :=
  { w with dirs := p :: w.dirs }

/-- `shutil.rmtree p`; `pf` is the packages folder, whose `state.json` is
deleted along with any tree containing it. -/
def World.rmtree (w : World) (pf p : Path) : World :=
  { dirs := w.dirs.filter (fun d => !underDir p d),
    stateFile :=
      if (p ++ "/").data.isPrefixOf (pf ++ "/state.json").data then none
      else w.stateFile }

/-- Oracle deciding whether an external git command (args, optional cwd)
exits successfully. -/
abbrev GitOracle := List String → Option Path → Bool

/-- The source helper that shells out (named `run_cmd` there, a reserved word
in Lean): run an external command, reporting success. -/
def runCommand (gitOk : GitOracle) (args : List String) (cwd : Option Path) :
    Bool × List Event :=
  (gitOk args cwd, [Event.runGit args cwd])

/-- `to_unix_path` is the identity off Windows. -/
def to_unix_path (path : Path) : Path :=
  if !IS_WINDOWS then path else path

/-- `PLATFORMS_WITH_EXTERNAL_HAL` literal from the script. -/
def PLATFORMS_WITH_EXTERNAL_HAL : List (String × List String) :=
  [("atmelsam", ["st", "atmel"]),
   ("chipsalliance", ["swervolf"]),
   ("freescalekinetis", ["st", "nxp"]),
   ("ststm32", ["st", "stm32"]),
   ("siliconlabsefm32", ["st", "silabs"]),
   ("nordicnrf51", ["st", "nordic"]),
   ("nordicnrf52", ["st", "nordic"]),
   ("nxplpc", ["st", "nxp"]),
   ("nxpimxrt", ["st", "nxp"]),
   ("teensy", ["st", "nxp"])]

/-- `PLATFORMS_WITH_EXTERNAL_HAL.get(platform_name, [])`. -/
def halVendors (platform_name : String) : List String :=
  (((PLATFORMS_WITH_EXTERNAL_HAL.find? (fun e => e.1 == platform_name)).map
      (fun e => e.2)).getD [])

/-- `IGNORED_PACKAGES` literal from the script. -/
def IGNORED_PACKAGES : List String :=
  ["trusted-firmware-m", "trusted-firmware-a"]

/-- Lowercase-hex character class `[0-9a-f]` of the commit-hash pattern. -/
def isLowerHex (c : Char) : Bool :=
  ('0' ≤ c && c ≤ '9') || ('a' ≤ c && c ≤ 'f')

/-- Python's `$` anchor: matches at the end of the string or just before a
newline at the end of the string. -/
def dollarAt (s : List Char) (e : Nat) : Bool :=
  e == s.length || (e + 1 == s.length && s.getD e ' ' == '\n')

/-- `re.match(r"[0-9a-f]{7,}$", value)`: some end position `e ≥ 7` such that
the first `e` characters are lowercase hex and `$` holds at `e`. -/
def reMatchHex7Dollar (s : List Char) : Bool :=
  (List.range (s.length + 1)).any
    (fun e => decide (7 ≤ e) && (s.take e).all isLowerHex && dollarAt s e)

/-- `is_commit_hash(value)`: `value and re.match(r"[0-9a-f]{7,}$", value)`,
used as a boolean. -/
def is_commit_hash (value : String) : Bool :=
  value != "" && reMatchHex7Dollar value.data

/-- A `west.yml` project entry (the dictionary keys the script accesses).
`name` is taken as present (the script indexes it unconditionally everywhere
a project is handled); all other keys are optional in the source manifest. -/
structure Project where
  name : String
  path : Option String
  revision : Option String
  url : Option String
  urlBase : Option String
  remote : Option String
  repoPath : Option String
  submodules : Bool
  deriving DecidableEq, Repr

/-- A `west.yml` remote entry: a name and an optional `url-base`. -/
structure Remote where
  name : String
  urlBase : Option String
  deriving DecidableEq, Repr

/-- The fields of the parsed `west.yml` that the script reads.
`defaultsRemote` is `manifest.get("defaults", {}).get("remote", "")`. -/
structure WestManifest where
  projects : Option (List Project)
  defaultsRemote : String
  remotes : Option (List Remote)
  deriving DecidableEq, Repr

/-- `{remote["name"]: remote for remote in ...}`: later entries win. -/
def remoteDict (rs : List Remote) : String → Option Remote :=
  fun n => rs.reverse.find? (fun r => r.name == n)

/-- `{proj["name"]: proj for proj in west_manifest["projects"]}`. -/
def westDep (ps : List Project) : String → Option Project :=
  fun n => ps.reverse.find? (fun p => p.name == n)

/-- Python's `str.startswith`: a character-level prefix test (`String.startsWith`
from the Lean core is extensionally the same but does not reduce in the
kernel, so the embedding spells out the list prefix). -/
def startswith (s pre : String) : Bool :=
  pre.data.isPrefixOf s.data

/-- `is_project_required(project_config, platform_name)`.  Accessing the
missing `"path"` key raises a `KeyError` (the HAL check only reads the
name, so it fires first). -/
def is_project_required (project_config : Project) (platform_name : String) :
    Except PyErr Bool :=
  let project_name := project_config.name
  if startswith project_name "hal_" &&
      !((halVendors platform_name).contains (project_name.drop 4)) then
    .ok false
  else
    match project_config.path with
    | none => .error .keyError
    | some path =>
      if startswith path "tool" || startswith project_name "nrf_hw_" then
        .ok false
      else
        .ok true

/-- `prepare_package_url(remotes, default_remote_name, package_config)`.
Mirrors the source faithfully: the explicit branch is guarded by the
presence of the `url` key but reads the `url-base` key (KeyError when the
latter is missing); in the other branch the default remote is looked up
first — if it is absent, `remotes.get(default, "")` yields the string `""`
and `"".get(...)` raises `AttributeError` before the entry's own named
remote is even consulted; a named remote missing from the registry (or
present without a `url-base`) raises `KeyError`. -/
def prepare_package_url (remotes : String → Option Remote)
    (default_remote_name : String) (package_config : Project) :
    Except PyErr String :=
  if package_config.url.isSome then
    match package_config.urlBase with
    | some u => .ok (u ++ ".git")
    | none => .error .keyError
  else do
    let defaultBase ←
      match remotes default_remote_name with
      | some r => Except.ok (r.urlBase.getD "")
      | none => Except.error PyErr.attributeError
    let remote_url ←
      match package_config.remote with
      | some rn =>
        match remotes rn with
        | some r =>
          match r.urlBase with
          | some u => Except.ok u
          | none => Except.error PyErr.keyError
        | none => Except.error PyErr.keyError
      | none => Except.ok defaultBase
    pure (remote_url ++ "/" ++
      (package_config.repoPath.getD package_config.name) ++ ".git")

/-- `clone_repository(dst_dir, remote_url, revision, submodules_required)`:
builds the clone arguments (branch/depth flags unless the revision is
hash-shaped, `--recursive` when submodules are requested), runs the clone,
then runs `git reset --hard` inside the checkout when the revision was a
commit hash.  The empty-revision warning is printed only when `VERBOSE`. -/
def clone_repository (dst_dir : Path) (remote_url : String) (revision : String)
    (submodules_required : Bool) (gitOk : GitOracle) : Bool × List Event :=
  let is_commit := is_commit_hash revision
  let warnEvs : List Event :=
    if !is_commit && revision == "" && VERBOSE then
      [Event.note "Warning! Commit hash is not specified! Using the `main` branch instead!"]
    else []
  let args : List String :=
    ["git", "clone"] ++
    (if !is_commit then
      ["--branch", (if revision == "" then "main" else revision), "--depth", "1"]
     else []) ++
    (if submodules_required then ["--recursive"] else [])
  let full := args ++ [remote_url, dst_dir]
  let (ok₁, evs₁) := runCommand gitOk full none
  if !ok₁ then
    (false, warnEvs ++ evs₁ ++
      [Event.note ("Error: Failed to clone project from `" ++ remote_url ++ "`!")])
  else if is_commit then
    let (ok₂, evs₂) := runCommand gitOk ["git", "reset", "--hard", revision] (some dst_dir)
    (ok₂, warnEvs ++ evs₁ ++ evs₂)
  else
    (true, warnEvs ++ evs₁)

/-- `install_from_remote(package_config, dst_dir, remotes, default_remote)`:
resolve the URL, assert a truthy revision (`""` and a missing key both fail
the assert), create the destination directory, clone. -/
def install_from_remote (package_config : Project) (dst_dir : Path)
    (remotes : String → Option Remote) (default_remote : String)
    (gitOk : GitOracle) (w : World) :
    Except PyErr Bool × World × List Event :=
  match prepare_package_url remotes default_remote package_config with
  | .error e => (.error e, w, [])
  | .ok remote_url =>
    if package_config.revision.getD "" == "" then
      (.error .assertionError, w, [])
    else
      let w' := w.addDir dst_dir
      let (ok, evs) :=
        clone_repository (to_unix_path dst_dir) remote_url
          (package_config.revision.getD "") package_config.submodules gitOk
      (.ok ok, w', Event.mkdir dst_dir :: evs)

/-- `clear_deprecated_package(path, packages_folder)`: remove the drifted
package's directory if it exists, otherwise print "Package path not found"
(non-fatal). -/
def clear_deprecated_package (path : String) (packages_folder : Path)
    (w : World) : World × List Event :=
  let deprecated_pkg_path := packages_folder ++ "/" ++ path
  if deprecated_pkg_path ∈ w.dirs then
    (w.rmtree packages_folder deprecated_pkg_path,
      [Event.rmtree deprecated_pkg_path])
  else
    (w, [Event.note "Package path not found"])

/-- One entry of the `modified` list built by `process_bundled_projects`:
a state-recorded project whose recorded hash differs from the manifest's
revision. -/
structure DriftEntry where
  name : String
  state_hash : String
  west_revision : Option String
  path : Option String
  deriving DecidableEq, Repr

/-- The `modified` list: for every `(name, state_hash)` item of the state
record, if the name is in the manifest and the recorded hash differs from
the manifest revision (`state_hash != west_dep[name].get("revision")`,
where a missing revision is `None` and thus differs from any string),
collect name, both revisions, and the manifest path. -/
def driftModified (state_manifest : List (String × String))
    (dep : String → Option Project) : List DriftEntry :=
  state_manifest.filterMap (fun item =>
    match dep item.1 with
    | none => none
    | some p =>
      if p.revision ≠ some item.2 then
        some ⟨item.1, item.2, p.revision, p.path⟩
      else none)

/-- The invalidation loop over the `modified` entries: print the upgrade
notice and clear each drifted package directory.  `os.path.join` with a
`None` path raises a `TypeError`. -/
def clearDrifted (packages_folder : Path) :
    List DriftEntry → World → Except PyErr Unit × World × List Event
  | [], w => (.ok (), w, [])
  | d :: ds, w =>
    let ev0 := Event.note ("Package " ++ d.name ++
      " version differs from west.yml.. Upgrading to " ++
      (d.west_revision.getD "None"))
    match d.path with
    | none => (.error .typeError, w, [ev0])
    | some pa =>
      let (w', evs) := clear_deprecated_package pa packages_folder w
      let (res, w'', evs') := clearDrifted packages_folder ds w'
      (res, w'', ev0 :: (evs ++ evs'))

/-- `result[name] = rev` on a Python dict kept as an insertion-ordered
association list: overwrite in place if the key exists, else append. -/
def dictSet (m : List (String × String)) (k v : String) :
    List (String × String) :=
  if m.any (fun kv => kv.1 == k) then
    m.map (fun kv => if kv.1 == k then (k, v) else kv)
  else
    m ++ [(k, v)]

/-- Outcome of one iteration of the install loop: an exception propagates
(`raise`), a fetch failure returns `(False, result)` from the function
(`halt`), or the loop continues with an updated accumulator (`next`). -/
inductive StepOutcome where
  | raise (e : PyErr) (w : World) (evs : List Event)
  | halt (result : List (String × String)) (w : World) (evs : List Event)
  | next (result : List (String × String)) (w : World) (evs : List Event)
  deriving DecidableEq, Repr

/-- The events of a step outcome. -/
def StepOutcome.evs : StepOutcome → List Event
  | .raise _ _ evs => evs
  | .halt _ _ evs => evs
  | .next _ _ evs => evs

/-- The body of the `for project_config in west_manifest.get("projects", [])`
loop of `process_bundled_projects` for one entry.  Branches, in source order:
skip entries the filter rejects; treat an existing package directory as
already installed (recording `project_config["revision"]`, a `KeyError` when
that key is absent); skip ignored packages; otherwise install, halting the
whole loop with `(False, result)` on a fetch failure. -/
def installStep (platform_name : String) (packages_folder : Path)
    (remotes : String → Option Remote) (default_remote : String)
    (gitOk : GitOracle) (p : Project) (result : List (String × String))
    (w : World) : StepOutcome :=
  match is_project_required p platform_name with
  | .error e => .raise e w []
  | .ok false => .next result w []
  | .ok true =>
    let project_name := p.name
    let package_path := packages_folder ++ "/" ++ (p.path.getD project_name)
    if package_path ∈ w.dirs then
      match p.revision with
      | none => .raise .keyError w []
      | some rev => .next (dictSet result project_name rev) w []
    else if project_name ∈ IGNORED_PACKAGES then
      .next result w []
    else
      let ev0 := Event.note ("Installing `" ++ project_name ++ "` project")
      match install_from_remote p package_path remotes default_remote gitOk w with
      | (.error e, w', evs) => .raise e w' (ev0 :: evs)
      | (.ok false, w', evs) =>
        .halt result w'
          (ev0 :: (evs ++
            [Event.note ("Failed to install the `" ++ project_name ++ "` project!")]))
      | (.ok true, w', evs) =>
        match p.revision with
        | none => .raise .keyError w' (ev0 :: evs)
        | some rev => .next (dictSet result project_name rev) w' (ev0 :: evs)

/-- The install loop itself: run `installStep` on each entry in manifest
order, concatenating events, stopping early on `raise` or `halt`. -/
def installLoop (platform_name : String) (packages_folder : Path)
    (remotes : String → Option Remote) (default_remote : String)
    (gitOk : GitOracle) (ps : List Project) (result : List (String × String))
    (w : World) :
    Except PyErr (Bool × List (String × String)) × World × List Event :=
  match ps with
  | [] => (.ok (true, result), w, [])
  | p :: rest =>
    match installStep platform_name packages_folder remotes default_remote
        gitOk p result w with
    | .raise e w' evs => (.error e, w', evs)
    | .halt result' w' evs => (.ok (false, result'), w', evs)
    | .next result' w' evs =>
      match installLoop platform_name packages_folder remotes default_remote
          gitOk rest result' w' with
      | (res, w'', evs') => (res, w'', evs ++ evs')

/-- Unfolding lemma for `installLoop` on the empty list (stated manually:
the auto-generated equations are prohibitively slow to elaborate). -/
theorem installLoop_nil (pl pf : String) (rm : String → Option Remote)
    (dr : String) (g : GitOracle) (r : List (String × String)) (w : World) :
    installLoop pl pf rm dr g [] r w = (.ok (true, r), w, []) := rfl

/-- Unfolding lemma for `installLoop` on a cons cell. -/
theorem installLoop_cons (pl pf : String) (rm : String → Option Remote)
    (dr : String) (g : GitOracle) (p : Project) (rest : List Project)
    (r : List (String × String)) (w : World) :
    installLoop pl pf rm dr g (p :: rest) r w =
      match installStep pl pf rm dr g p r w with
      | .raise e w' evs => (.error e, w', evs)
      | .halt r' w' evs => (.ok (false, r'), w', evs)
      | .next r' w' evs =>
        match installLoop pl pf rm dr g rest r' w' with
        | (res, w'', evs') => (res, w'', evs ++ evs') := rfl

/-- `if not os.path.isdir(packages_folder): os.makedirs(packages_folder)`. -/
def ensurePackagesFolder (packages_folder : Path) (w : World) :
    World × List Event :=
  if packages_folder ∈ w.dirs then (w, [])
  else (w.addDir packages_folder, [Event.mkdir packages_folder])

/-- The `if state_manifest:` block of `process_bundled_projects`: when a
truthy (nonempty) state record was loaded, compare it with the manifest and
clear every drifted package directory. -/
def driftPhase (packages_folder : Path) (projects : List Project)
    (state_manifest : Option (List (String × String))) (w : World) :
    Except PyErr Unit × World × List Event :=
  match state_manifest with
  | some s =>
    if s ≠ [] then
      clearDrifted packages_folder (driftModified s (westDep projects)) w
    else (.ok (), w, [])
  | none => (.ok (), w, [])

/-- `process_bundled_projects(platform_name, packages_folder, west_manifest,
state_manifest)` body, in source order: assert the `projects` key, create the
packages folder if absent, run the drift invalidation, build the remotes
dict (`KeyError` when the `remotes` key is missing), run the install loop. -/
def process_bundled_projects (platform_name : String)
    (packages_folder : Path) (west_manifest : WestManifest)
    (state_manifest : Option (List (String × String))) (gitOk : GitOracle)
    (w : World) :
    Except PyErr (Bool × List (String × String)) × World × List Event :=
  match west_manifest.projects with
  | none => (.error .assertionError, w, [])
  | some projects =>
    match ensurePackagesFolder packages_folder w with
    | (w1, evs1) =>
      match driftPhase packages_folder projects state_manifest w1 with
      | (.error e, w2, evs2) => (.error e, w2, evs1 ++ evs2)
      | (.ok (), w2, evs2) =>
        let default_remote := west_manifest.defaultsRemote
        match west_manifest.remotes with
        | none => (.error .keyError, w2, evs1 ++ evs2)
        | some rs =>
          match installLoop platform_name packages_folder (remoteDict rs)
              default_remote gitOk projects [] w2 with
          | (res, w3, evs3) => (res, w3, evs1 ++ evs2 ++ evs3)

/-- `clean_up(packages_folder)`: recursively delete the whole package cache
if it exists (the embedding models `shutil.rmtree` as succeeding). -/
def clean_up (packages_folder : Path) (w : World) : World × List Event :=
  if packages_folder ∈ w.dirs then
    (w.rmtree packages_folder packages_folder, [Event.rmtree packages_folder])
  else (w, [])

/-- `save_state(dst_file, state_data)`: overwrite the state file. -/
def save_state (state_data : List (String × String)) (w : World) :
    World × List Event :=
  ({ w with stateFile := some state_data }, [Event.saveState state_data])

/-- Outcome of a whole run: the process exit code, the final filesystem
state and the event trace. -/
structure RunResult where
  exitCode : Nat
  world : World
  events : List Event
  deriving DecidableEq, Repr

/-- `main(platform_name, secondary_installation, manifest_path)` together
with the `__main__` wrapper: short-circuit to exit 0 when the state file
exists and this is not a secondary installation; exit 1 when git is
unavailable or the manifest cannot be loaded (`west_manifest = none`);
otherwise load the state file if present, run `process_bundled_projects`,
and either save the state (success with a nonempty record), run `clean_up`
and exit 1 (install failure), or exit 0.  An exception escaping
`process_bundled_projects` is caught by the `__main__` handler and turns
into exit 1 without any cleanup. -/
def main (platform_name : String) (secondary_installation : Bool)
    (git_available : Bool) (packages_folder : Path)
    (west_manifest : Option WestManifest) (gitOk : GitOracle) (w : World) :
    RunResult :=
  if w.stateFile.isSome ∧ ¬secondary_installation then ⟨0, w, []⟩
  else if ¬git_available then ⟨1, w, []⟩
  else
    match west_manifest with
    | none => ⟨1, w, []⟩
    | some wm =>
      let state_manifest := w.stateFile
      match process_bundled_projects platform_name packages_folder wm
          state_manifest gitOk w with
      | (.error _, w1, evs) => ⟨1, w1, evs⟩
      | (.ok (result, state), w1, evs) =>
        if result = true ∧ state ≠ [] then
          let (w2, evs2) := save_state state w1
          ⟨0, w2, evs ++ evs2⟩
        else if result = false then
          let (w2, evs2) := clean_up packages_folder w1
          ⟨1, w2, evs ++ evs2⟩
        else ⟨0, w1, evs⟩

/-! ## Path helper lemmas -/

theorem childPath_ne (pf x : Path) : pf ++ "/" ++ x ≠ pf := by
  intro h
  have hlen := congrArg String.length h
  rw [String.length_append, String.length_append] at hlen
  have h1 : String.length "/" = 1 := rfl
  omega

theorem childPath_inj {pf x y : Path} (h : pf ++ "/" ++ x = pf ++ "/" ++ y) :
    x = y := by
  apply String.ext
  have hd := congrArg String.data h
  rw [String.data_append, String.data_append, String.data_append,
    String.data_append] at hd
  exact List.append_cancel_left hd

theorem underDir_self (p : Path) : underDir p p = true := by
  simp [underDir]

theorem underDir_child (p x : Path) : underDir p (p ++ "/" ++ x) = true := by
  have h : (p ++ "/").data.isPrefixOf (p ++ "/" ++ x).data = true := by
    rw [String.data_append (p ++ "/") x]
    exact List.isPrefixOf_iff_prefix.mpr (List.prefix_append _ _)
  simp [underDir, h]

theorem not_underDir_of_length {p d : Path} (hne : d ≠ p)
    (hlen : d.length ≤ p.length) : underDir p d = false := by
  simp only [underDir, Bool.or_eq_false_iff, beq_eq_false_iff_ne, ne_eq]
  refine ⟨hne, ?_⟩
  rw [Bool.eq_false_iff]
  intro hpre
  have hle := (List.isPrefixOf_iff_prefix.mp hpre).length_le
  have h1 : (p ++ "/").data.length = p.data.length + 1 := by
    rw [String.data_append, List.length_append]
    have hs : ("/" : String).data.length = 1 := rfl
    omega
  have h2 : d.data.length = d.length := rfl
  have h3 : p.data.length = p.length := rfl
  omega

theorem prefix_statejson (pf : Path) :
    (pf ++ "/").data.isPrefixOf (pf ++ "/state.json").data = true := by
  have h : pf ++ "/state.json" = (pf ++ "/") ++ "state.json" := by
    rw [String.append_assoc]
    have hlit : ("/" : String) ++ "state.json" = "/state.json" := rfl
    rw [hlit]
  rw [h, String.data_append (pf ++ "/") "state.json"]
  exact List.isPrefixOf_iff_prefix.mpr (List.prefix_append _ _)

theorem rmtree_self_stateFile (w : World) (pf : Path) :
    (w.rmtree pf pf).stateFile = none := by
  simp [World.rmtree, prefix_statejson]

/-! ## Event-shape lemmas: which kinds of events each phase can emit -/

theorem clone_repository_events {dst url rev : String} {sub : Bool}
    {g : GitOracle} {e : Event}
    (he : e ∈ (clone_repository dst url rev sub g).2) :
    (∃ a c, e = Event.runGit a c) ∨ ∃ m, e = Event.note m := by
  unfold clone_repository runCommand at he
  simp only [VERBOSE, Bool.and_false, Bool.false_eq_true, if_false,
    List.nil_append] at he
  repeat' split at he
  all_goals
    simp only [List.mem_append, List.mem_cons, List.mem_singleton,
      List.not_mem_nil, or_false, false_or] at he
  all_goals
    rcases he with rfl | rfl | rfl <;>
      first
      | exact Or.inl ⟨_, _, rfl⟩
      | exact Or.inr ⟨_, rfl⟩

theorem install_from_remote_events {pc : Project} {dst : Path}
    {rm : String → Option Remote} {dr : String} {g : GitOracle} {w : World}
    {e : Event} (he : e ∈ (install_from_remote pc dst rm dr g w).2.2) :
    (∃ a c, e = Event.runGit a c) ∨ (∃ m, e = Event.note m) ∨
      ∃ p, e = Event.mkdir p := by
  rcases hurl : prepare_package_url rm dr pc with e' | remote_url
  · unfold install_from_remote at he
    rw [hurl] at he
    simp at he
  · unfold install_from_remote at he
    rw [hurl] at he
    dsimp only at he
    split at he
    · simp at he
    · simp only [List.mem_cons] at he
      rcases he with he | he
      · exact Or.inr (Or.inr ⟨dst, he⟩)
      · rcases clone_repository_events he with h | h
        · exact Or.inl h
        · exact Or.inr (Or.inl h)

theorem installStep_events {pl pf : String} {rm : String → Option Remote}
    {dr : String} {g : GitOracle} {p : Project}
    {r : List (String × String)} {w : World} {e : Event}
    (he : e ∈ (installStep pl pf rm dr g p r w).evs) :
    (∃ a c, e = Event.runGit a c) ∨ (∃ m, e = Event.note m) ∨
      ∃ q, e = Event.mkdir q := by
  unfold installStep at he
  rcases hreq : is_project_required p pl with e' | b
  · rw [hreq] at he; simp [StepOutcome.evs] at he
  · rw [hreq] at he
    cases b with
    | false => simp [StepOutcome.evs] at he
    | true =>
      dsimp only at he
      split at he
      · split at he <;> simp [StepOutcome.evs] at he
      · split at he
        · simp [StepOutcome.evs] at he
        · rcases hins : install_from_remote p
              (pf ++ "/" ++ (p.path.getD p.name)) rm dr g w with ⟨res, w', evs⟩
          have hbase := @install_from_remote_events p
            (pf ++ "/" ++ (p.path.getD p.name)) rm dr g w e
          rw [hins] at he hbase
          rcases res with e' | ok
          · simp only [StepOutcome.evs, List.mem_cons] at he
            rcases he with he | he
            · exact Or.inr (Or.inl ⟨_, he⟩)
            · exact hbase he
          · cases ok with
            | false =>
              simp only [StepOutcome.evs, List.mem_cons, List.mem_append,
                List.mem_singleton, List.not_mem_nil, or_false] at he
              rcases he with he | he | he
              · exact Or.inr (Or.inl ⟨_, he⟩)
              · exact hbase he
              · exact Or.inr (Or.inl ⟨_, he⟩)
            | true =>
              cases hrev : p.revision with
              | none =>
                rw [hrev] at he
                simp only [StepOutcome.evs, List.mem_cons] at he
                rcases he with he | he
                · exact Or.inr (Or.inl ⟨_, he⟩)
                · exact hbase he
              | some rev =>
                rw [hrev] at he
                simp only [StepOutcome.evs, List.mem_cons] at he
                rcases he with he | he
                · exact Or.inr (Or.inl ⟨_, he⟩)
                · exact hbase he

theorem installLoop_events {pl pf : String} {rm : String → Option Remote}
    {dr : String} {g : GitOracle} {e : Event} :
    ∀ {ps : List Project} {r : List (String × String)} {w : World},
      e ∈ (installLoop pl pf rm dr g ps r w).2.2 →
      (∃ a c, e = Event.runGit a c) ∨ (∃ m, e = Event.note m) ∨
        ∃ q, e = Event.mkdir q
  | [], r, w, he => by rw [installLoop_nil] at he; simp at he
  | p :: ps, r, w, he => by
    rw [installLoop_cons] at he
    rcases hstep : installStep pl pf rm dr g p r w with
        ⟨e', w', evs⟩ | ⟨r', w', evs⟩ | ⟨r', w', evs⟩ <;>
      rw [hstep] at he
    · exact installStep_events (by rw [hstep]; exact he)
    · exact installStep_events (by rw [hstep]; exact he)
    · dsimp only at he
      rcases List.mem_append.mp he with he | he
      · exact installStep_events (by rw [hstep]; exact he)
      · exact installLoop_events he

theorem dictSet_ne_nil (m : List (String × String)) (k v : String) :
    dictSet m k v ≠ [] := by
  unfold dictSet
  split
  · intro h
    rcases m with _ | ⟨a, m⟩
    · simp_all
    · simp at h
  · intro h
    simp at h

/-- If one loop step continues with an empty accumulator, the incoming
accumulator was empty and the step changed nothing (the entry was either
filtered out or ignored-and-absent). -/
theorem installStep_next_nil {pl pf : String} {rm : String → Option Remote}
    {dr : String} {g : GitOracle} {p : Project}
    {r : List (String × String)} {w w₁ : World} {evs₁ : List Event}
    (h : installStep pl pf rm dr g p r w = .next [] w₁ evs₁) :
    r = [] ∧ w₁ = w ∧ evs₁ = [] := by
  unfold installStep at h
  rcases hreq : is_project_required p pl with e' | b <;> rw [hreq] at h
  · exact absurd h (by simp)
  · cases b with
    | false =>
      simp only [StepOutcome.next.injEq] at h
      exact ⟨h.1, h.2.1.symm, h.2.2.symm⟩
    | true =>
      dsimp only at h
      split at h
      · split at h
        · exact absurd h (by simp)
        · simp only [StepOutcome.next.injEq] at h
          exact absurd h.1 (dictSet_ne_nil _ _ _)
      · split at h
        · simp only [StepOutcome.next.injEq] at h
          exact ⟨h.1, h.2.1.symm, h.2.2.symm⟩
        · rcases hins : install_from_remote p
              (pf ++ "/" ++ (p.path.getD p.name)) rm dr g w with ⟨res, w', evs⟩
          rw [hins] at h
          rcases res with e' | ok
          · exact absurd h (by simp)
          · cases ok with
            | false => exact absurd h (by simp)
            | true =>
              cases hrev : p.revision with
              | none => rw [hrev] at h; exact absurd h (by simp)
              | some rev =>
                rw [hrev] at h
                simp only [StepOutcome.next.injEq] at h
                exact absurd h.1 (dictSet_ne_nil _ _ _)

/-- A loop run that succeeds with an empty result dict started with an empty
accumulator, changed nothing in the world and emitted no events. -/
theorem installLoop_true_nil {pl pf : String} {rm : String → Option Remote}
    {dr : String} {g : GitOracle} :
    ∀ {ps : List Project} {r : List (String × String)} {w w' : World}
      {evs : List Event},
      installLoop pl pf rm dr g ps r w = (.ok (true, []), w', evs) →
      r = [] ∧ w' = w ∧ evs = []
  | [], r, w, w', evs, h => by
    rw [installLoop_nil] at h
    simp only [Prod.mk.injEq, Except.ok.injEq] at h
    exact ⟨h.1.2, h.2.1.symm, h.2.2.symm⟩
  | p :: ps, r, w, w', evs, h => by
    rw [installLoop_cons] at h
    rcases hstep : installStep pl pf rm dr g p r w with
        ⟨e', w₁, evs₁⟩ | ⟨r₁, w₁, evs₁⟩ | ⟨r₁, w₁, evs₁⟩ <;> rw [hstep] at h
    · exact absurd h (by simp)
    · exact absurd h (by simp)
    · dsimp only at h
      rcases hrec : installLoop pl pf rm dr g ps r₁ w₁ with ⟨res, w₂, evs₂⟩
      rw [hrec] at h
      dsimp only at h
      simp only [Prod.mk.injEq] at h
      obtain ⟨hres, hw, hevs⟩ := h
      rw [hres] at hrec
      obtain ⟨hr₁, hw₂, hevs₂⟩ := installLoop_true_nil hrec
      rw [hr₁] at hstep
      obtain ⟨hr, hw₁, hevs₁⟩ := installStep_next_nil hstep
      refine ⟨hr, ?_, ?_⟩
      · rw [← hw, hw₂, hw₁]
      · rw [← hevs, hevs₁, hevs₂]; rfl

theorem clearDrifted_events {pf : Path} {e : Event} :
    ∀ {ds : List DriftEntry} {w : World},
      e ∈ (clearDrifted pf ds w).2.2 →
      (∃ p, e = Event.rmtree p) ∨ ∃ m, e = Event.note m
  | [], w, he => by simp [clearDrifted] at he
  | d :: ds, w, he => by
    rw [clearDrifted] at he
    rcases hp : d.path with _ | pa <;> rw [hp] at he
    · simp only [List.mem_singleton] at he
      exact Or.inr ⟨_, he⟩
    · dsimp only at he
      rcases hcl : clear_deprecated_package pa pf w with ⟨w₁, evs₁⟩
      rw [hcl] at he
      rcases hrec : clearDrifted pf ds w₁ with ⟨res, w₂, evs₂⟩
      rw [hrec] at he
      dsimp only at he
      simp only [List.mem_cons, List.mem_append] at he
      rcases he with rfl | he | he
      · exact Or.inr ⟨_, rfl⟩
      · have : e ∈ (clear_deprecated_package pa pf w).2 := by rw [hcl]; exact he
        unfold clear_deprecated_package at this
        dsimp only at this
        split at this <;> simp only [List.mem_singleton] at this
        · exact Or.inl ⟨_, this⟩
        · exact Or.inr ⟨_, this⟩
      · have : e ∈ (clearDrifted pf ds w₁).2.2 := by rw [hrec]; exact he
        exact clearDrifted_events this

theorem ensurePackagesFolder_events {pf : Path} {w : World} {e : Event}
    (he : e ∈ (ensurePackagesFolder pf w).2) : e = Event.mkdir pf := by
  unfold ensurePackagesFolder at he
  split at he <;>
    simp only [List.mem_singleton, List.not_mem_nil] at he
  exact he

theorem driftPhase_events {pf : Path} {projects : List Project}
    {sm : Option (List (String × String))} {w : World} {e : Event}
    (he : e ∈ (driftPhase pf projects sm w).2.2) :
    (∃ p, e = Event.rmtree p) ∨ ∃ m, e = Event.note m := by
  unfold driftPhase at he
  rcases sm with _ | s
  · simp at he
  · dsimp only at he
    split at he
    · exact clearDrifted_events he
    · simp at he

/-- No phase of `process_bundled_projects` writes the state file: every event
it emits is a directory creation/removal, a git invocation or a log line. -/
theorem process_bundled_projects_events {pl pf : String} {wm : WestManifest}
    {sm : Option (List (String × String))} {g : GitOracle} {w : World}
    {e : Event}
    (he : e ∈ (process_bundled_projects pl pf wm sm g w).2.2) :
    (∃ a c, e = Event.runGit a c) ∨ (∃ m, e = Event.note m) ∨
      (∃ q, e = Event.mkdir q) ∨ ∃ q, e = Event.rmtree q := by
  unfold process_bundled_projects at he
  rcases hpj : wm.projects with _ | projects <;> rw [hpj] at he
  · simp at he
  · dsimp only at he
    rcases hmk : ensurePackagesFolder pf w with ⟨w1, evs1⟩
    rw [hmk] at he
    have hevs1 : ∀ e' ∈ evs1, e' = Event.mkdir pf := by
      intro e' he'
      exact @ensurePackagesFolder_events pf w e' (by rw [hmk]; exact he')
    rcases hdr : driftPhase pf projects sm w1 with ⟨dres, w2, evs2⟩
    rw [hdr] at he
    have hevs2 : ∀ e' ∈ evs2,
        (∃ p, e' = Event.rmtree p) ∨ ∃ m, e' = Event.note m := by
      intro e' he'
      exact @driftPhase_events pf projects sm w1 e' (by rw [hdr]; exact he')
    rcases dres with de | du
    · dsimp only at he
      rcases List.mem_append.mp he with he | he
      · exact Or.inr (Or.inr (Or.inl ⟨pf, hevs1 e he⟩))
      · rcases hevs2 e he with ⟨q, rfl⟩ | ⟨m, rfl⟩
        · exact Or.inr (Or.inr (Or.inr ⟨q, rfl⟩))
        · exact Or.inr (Or.inl ⟨m, rfl⟩)
    · cases du
      dsimp only at he
      rcases hrm : wm.remotes with _ | rs <;> rw [hrm] at he
      · dsimp only at he
        rcases List.mem_append.mp he with he | he
        · exact Or.inr (Or.inr (Or.inl ⟨pf, hevs1 e he⟩))
        · rcases hevs2 e he with ⟨q, rfl⟩ | ⟨m, rfl⟩
          · exact Or.inr (Or.inr (Or.inr ⟨q, rfl⟩))
          · exact Or.inr (Or.inl ⟨m, rfl⟩)
      · dsimp only at he
        rcases hloop : installLoop pl pf (remoteDict rs) wm.defaultsRemote g
            projects [] w2 with ⟨res, w3, evs3⟩
        rw [hloop] at he
        dsimp only at he
        rcases List.mem_append.mp he with he | he
        rcases List.mem_append.mp he with he | he
        · exact Or.inr (Or.inr (Or.inl ⟨pf, hevs1 e he⟩))
        · rcases hevs2 e he with ⟨q, rfl⟩ | ⟨m, rfl⟩
          · exact Or.inr (Or.inr (Or.inr ⟨q, rfl⟩))
          · exact Or.inr (Or.inl ⟨m, rfl⟩)
        · have : e ∈ (installLoop pl pf (remoteDict rs) wm.defaultsRemote g
              projects [] w2).2.2 := by rw [hloop]; exact he
          rcases installLoop_events this with h | h | h
          · exact Or.inl h
          · exact Or.inr (Or.inl h)
          · exact Or.inr (Or.inr (Or.inl h))

/-! ## Exact traces of the two clone paths -/

/-- When the revision is not hash-shaped, `clone_repository` runs exactly one
git command: a shallow `--branch`/`--depth 1` clone (branch defaulting to
`"main"` on an empty revision), with `--recursive` iff submodules are
requested; no warning is printed (`VERBOSE` is permanently false). -/
theorem clone_repository_branch (dst url rev : String) (sub : Bool)
    (g : GitOracle) (hf : is_commit_hash rev = false) :
    clone_repository dst url rev sub g =
      (if !(g (["git", "clone", "--branch",
              (if rev == "" then "main" else rev), "--depth", "1"] ++
              (if sub then ["--recursive"] else []) ++ [url, dst]) none) then
        (false,
          [Event.runGit (["git", "clone", "--branch",
              (if rev == "" then "main" else rev), "--depth", "1"] ++
              (if sub then ["--recursive"] else []) ++ [url, dst]) none,
           Event.note ("Error: Failed to clone project from `" ++ url ++ "`!")])
      else
        (true,
          [Event.runGit (["git", "clone", "--branch",
              (if rev == "" then "main" else rev), "--depth", "1"] ++
              (if sub then ["--recursive"] else []) ++ [url, dst]) none])) := by
  unfold clone_repository runCommand
  rw [hf]
  simp only [VERBOSE, Bool.and_false, Bool.false_eq_true, if_false,
    Bool.not_false, if_true, List.nil_append, List.cons_append,
    List.nil_append]

/-- When the revision is hash-shaped, `clone_repository` runs a full clone
(no `--branch`, no `--depth`) followed — when the clone succeeded — by a
`git reset --hard <revision>` inside the checkout. -/
theorem clone_repository_commit (dst url rev : String) (sub : Bool)
    (g : GitOracle) (hf : is_commit_hash rev = true) :
    clone_repository dst url rev sub g =
      (if !(g (["git", "clone"] ++ (if sub then ["--recursive"] else []) ++
              [url, dst]) none) then
        (false,
          [Event.runGit (["git", "clone"] ++
              (if sub then ["--recursive"] else []) ++ [url, dst]) none,
           Event.note ("Error: Failed to clone project from `" ++ url ++ "`!")])
      else
        (g ["git", "reset", "--hard", rev] (some dst),
          [Event.runGit (["git", "clone"] ++
              (if sub then ["--recursive"] else []) ++ [url, dst]) none,
           Event.runGit ["git", "reset", "--hard", rev] (some dst)])) := by
  unfold clone_repository runCommand
  rw [hf]
  simp only [VERBOSE, Bool.and_false, Bool.false_eq_true, if_false,
    Bool.not_true, Bool.not_false, if_true, List.nil_append,
    List.cons_append]

/-! ## C10: the commit-hash classification -/

theorem reMatchHex7Dollar_iff (l : List Char) :
    reMatchHex7Dollar l = true ↔
      (7 ≤ l.length ∧ l.all isLowerHex = true) ∨
        ∃ t : List Char, l = t ++ ['\n'] ∧ 7 ≤ t.length ∧
          t.all isLowerHex = true := by
  unfold reMatchHex7Dollar
  rw [List.any_eq_true]
  constructor
  · rintro ⟨e, hmem, hp⟩
    rw [List.mem_range] at hmem
    simp only [Bool.and_eq_true, decide_eq_true_eq, dollarAt, Bool.or_eq_true,
      beq_iff_eq] at hp
    obtain ⟨⟨h7, hall⟩, hd⟩ := hp
    rcases hd with rfl | ⟨hlen, hnl⟩
    · exact Or.inl ⟨h7, by rwa [List.take_length] at hall⟩
    · refine Or.inr ⟨l.take e, ?_, ?_, hall⟩
      · have helt : e < l.length := by omega
        have hdrop : l.drop e = [l[e]] := by
          rw [List.drop_eq_getElem_cons helt, List.drop_eq_nil_of_le (by omega)]
        have hgd : l.getD e ' ' = l[e] := List.getD_eq_getElem l ' ' helt
        rw [hgd] at hnl
        conv_lhs => rw [← List.take_append_drop e l]
        rw [hdrop, hnl]
      · have hlt : (l.take e).length = e := by
          rw [List.length_take]; omega
        omega
  · rintro (⟨h7, hall⟩ | ⟨t, rfl, h7, hall⟩)
    · refine ⟨l.length, ?_, ?_⟩
      · rw [List.mem_range]; omega
      · simp only [Bool.and_eq_true, decide_eq_true_eq, dollarAt,
          Bool.or_eq_true, beq_iff_eq]
        exact ⟨⟨h7, by rwa [List.take_length]⟩, by simp⟩
    · refine ⟨t.length, ?_, ?_⟩
      · rw [List.mem_range, List.length_append]
        have h1 : (['\n'] : List Char).length = 1 := rfl
        omega
      · simp only [Bool.and_eq_true, decide_eq_true_eq, dollarAt,
          Bool.or_eq_true, beq_iff_eq]
        refine ⟨⟨h7, by rw [List.take_left]; exact hall⟩, Or.inr ⟨?_, ?_⟩⟩
        · rw [List.length_append]
          rfl
        · rw [List.getD_eq_getElem?_getD, List.getElem?_concat_length]
          rfl

theorem is_commit_hash_iff (s : String) :
    is_commit_hash s = true ↔
      (7 ≤ s.data.length ∧ s.data.all isLowerHex = true) ∨
        ∃ t : List Char, s.data = t ++ ['\n'] ∧ 7 ≤ t.length ∧
          t.all isLowerHex = true := by
  unfold is_commit_hash
  rw [Bool.and_eq_true, reMatchHex7Dollar_iff]
  constructor
  · exact fun h => h.2
  · intro h
    refine ⟨?_, h⟩
    rw [bne_iff_ne]
    intro hs
    subst hs
    have hnil : ("" : String).data = [] := rfl
    rcases h with ⟨h7, _⟩ | ⟨t, ht, h7, _⟩
    · rw [hnil] at h7
      simp at h7
    · rw [hnil] at ht
      exact absurd ht.symm (List.append_ne_nil_of_right_ne_nil t (by simp))

/-- **C10, counterexample.**  The claim says the classification accepts
exactly the strings of 7+ lowercase hex characters, and that any revision
containing a non-hex character goes down the shallow single-branch path with
no hard reset.  The string `"abcdef1\n"` contains a non-hex character (the
newline), yet `is_commit_hash` accepts it — Python's `$` also matches just
before a trailing newline — so the clone runs the hash path: no `--branch`
and a `git reset --hard` inside the checkout. -/
theorem C10_counterexample :
    is_commit_hash "abcdef1\n" = true ∧
      ('\n' ∈ ("abcdef1\n" : String).data ∧ isLowerHex '\n' = false) ∧
      (clone_repository "dst" "url" "abcdef1\n" false (fun _ _ => true)).2 =
        [Event.runGit ["git", "clone", "url", "dst"] none,
         Event.runGit ["git", "reset", "--hard", "abcdef1\n"] (some "dst")] := by
  decide

/-- **C10** (amended).  The commit-hash classification accepts exactly the
strings consisting of 7 or more lowercase hexadecimal characters *optionally
followed by a single trailing newline* (Python's `$` anchor also matches
just before a final newline); for every revision it rejects — in particular
any revision containing an uppercase hex letter or an interior non-hex
character — the clone takes the branch path: every git command the clone
step emits is a top-level `git clone` carrying `--branch` (no command runs
inside the checkout, hence no hard reset). -/
theorem C10_commit_hash_classification (s : String) :
    (is_commit_hash s = true ↔
      (7 ≤ s.data.length ∧ s.data.all isLowerHex = true) ∨
        ∃ t : List Char, s.data = t ++ ['\n'] ∧ 7 ≤ t.length ∧
          t.all isLowerHex = true) ∧
    (is_commit_hash s = false →
      ∀ (dst url : String) (sub : Bool) (g : GitOracle) (a : List String)
        (c : Option Path),
        Event.runGit a c ∈ (clone_repository dst url s sub g).2 →
        c = none ∧ "--branch" ∈ a) := by
  refine ⟨is_commit_hash_iff s, ?_⟩
  intro hfalse dst url sub g a c hmem
  rw [clone_repository_branch dst url s sub g hfalse] at hmem
  repeat' split at hmem
  all_goals
    simp only [List.mem_cons, List.mem_singleton, List.not_mem_nil,
      or_false] at hmem
  all_goals try rcases hmem with hmem | hmem
  all_goals
    first
    | exact Event.noConfusion hmem
    | (injection hmem with ha hc
       exact ⟨hc, by rw [ha]; simp⟩)
    | exact ⟨rfl, by simp⟩

/-- Witness for the amended C10 at concrete inputs: `"ABCDEF1"` (uppercase)
is rejected and its clone command is a `--branch` clone at top level. -/
theorem C10_witness :
    is_commit_hash "ABCDEF1" = false ∧
      ("ABCDEF1" : String).data.all isLowerHex = false ∧
      (none = (none : Option Path) ∧ "--branch" ∈
        ["git", "clone", "--branch", "ABCDEF1", "--depth", "1", "u", "d"]) := by
  refine ⟨by decide, by decide, ?_⟩
  exact (C10_commit_hash_classification "ABCDEF1").2 (by decide) "d" "u" false
    (fun _ _ => true) _ _ (by decide)

/-! ## C3: the clone invocation is determined by the revision string -/

/-- **C3.**  A non-hash-shaped, nonempty revision yields a shallow
single-branch clone (`--branch <revision> --depth 1`); a hash-shaped
revision yields a full clone with no depth or branch restriction, followed
— when the clone succeeded — by a hard reset to exactly that commit; and
`--recursive` appears among the arguments of a git command of the trace
exactly when the entry requests submodules (provided none of the revision,
URL and destination is the literal string `"--recursive"`). -/
theorem C3_clone_dispatch (dst url rev : String) (sub : Bool) (g : GitOracle) :
    (is_commit_hash rev = false → rev ≠ "" →
      (clone_repository dst url rev sub g).2.head? =
        some (Event.runGit (["git", "clone", "--branch", rev, "--depth", "1"]
          ++ (if sub then ["--recursive"] else []) ++ [url, dst]) none)) ∧
    (is_commit_hash rev = true →
      ((clone_repository dst url rev sub g).2.head? =
        some (Event.runGit (["git", "clone"] ++
          (if sub then ["--recursive"] else []) ++ [url, dst]) none) ∧
      (g (["git", "clone"] ++ (if sub then ["--recursive"] else []) ++
          [url, dst]) none = true →
        (clone_repository dst url rev sub g).2 =
          [Event.runGit (["git", "clone"] ++
            (if sub then ["--recursive"] else []) ++ [url, dst]) none,
           Event.runGit ["git", "reset", "--hard", rev] (some dst)]))) ∧
    (rev ≠ "--recursive" → url ≠ "--recursive" → dst ≠ "--recursive" →
      ((∃ a c, Event.runGit a c ∈ (clone_repository dst url rev sub g).2 ∧
          "--recursive" ∈ a) ↔ sub = true)) := by
  refine ⟨?_, ?_, ?_⟩
  · intro hf hne
    rw [clone_repository_branch dst url rev sub g hf]
    have hb : (rev == "") = false := beq_eq_false_iff_ne.mpr hne
    rw [hb]
    simp only [Bool.false_eq_true, if_false]
    repeat' split
    all_goals rfl
  · intro ht
    rw [clone_repository_commit dst url rev sub g ht]
    constructor
    · repeat' split
      all_goals rfl
    · intro hok
      simp only [hok, Bool.not_true, Bool.false_eq_true, if_false]
  · intro hr hu hd
    have hr' : "--recursive" ≠ rev := fun h => hr h.symm
    have hu' : "--recursive" ≠ url := fun h => hu h.symm
    have hd' : "--recursive" ≠ dst := fun h => hd h.symm
    constructor
    · rintro ⟨a, c, hmem, hrec⟩
      by_contra hsub
      rw [Bool.not_eq_true] at hsub
      subst hsub
      rcases hhash : is_commit_hash rev with _ | _
      all_goals
        first
        | rw [clone_repository_branch dst url rev false g hhash] at hmem
        | rw [clone_repository_commit dst url rev false g hhash] at hmem
      all_goals repeat' split at hmem
      all_goals
        simp only [List.mem_cons, List.mem_singleton, List.not_mem_nil,
          or_false] at hmem
      all_goals try rcases hmem with hmem | hmem
      all_goals
        first
        | exact absurd ‹false = true› (by simp)
        | exact Event.noConfusion hmem
        | (injection hmem with ha _
           rw [ha] at hrec
           simp [hr', hu', hd'] at hrec)
        | simp_all
    · intro hsub
      subst hsub
      rcases hhash : is_commit_hash rev with _ | _
      · rw [clone_repository_branch dst url rev true g hhash]
        repeat' split
        all_goals
          first
          | exact absurd rfl ‹¬true = true›
          | exact ⟨_, none, List.mem_cons_self _ _, by simp⟩
      · rw [clone_repository_commit dst url rev true g hhash]
        repeat' split
        all_goals
          first
          | exact absurd rfl ‹¬true = true›
          | exact ⟨_, none, List.mem_cons_self _ _, by simp⟩

/-- Witness for C3 at concrete inputs: the symbolic revision `"develop"`,
the hash `"0123abc"`, and the recursive-flag equivalence at `sub = true`. -/
theorem C3_witness :
    ((clone_repository "d" "u" "develop" false (fun _ _ => true)).2.head? =
      some (Event.runGit (["git", "clone", "--branch", "develop", "--depth",
        "1"] ++ [] ++ ["u", "d"]) none)) ∧
    ((clone_repository "d" "u" "0123abc" false (fun _ _ => true)).2 =
      [Event.runGit (["git", "clone"] ++ [] ++ ["u", "d"]) none,
       Event.runGit ["git", "reset", "--hard", "0123abc"] (some "d")]) ∧
    ((∃ a c, Event.runGit a c ∈
        (clone_repository "d" "u" "develop" true (fun _ _ => true)).2 ∧
        "--recursive" ∈ a) ↔ True) := by
  refine ⟨?_, ?_, ?_⟩
  · have h := (C3_clone_dispatch "d" "u" "develop" false (fun _ _ => true)).1
      (by decide) (by decide)
    simpa using h
  · have h := ((C3_clone_dispatch "d" "u" "0123abc" false
      (fun _ _ => true)).2.1 (by decide)).2 (by decide)
    simpa using h
  · have h := (C3_clone_dispatch "d" "u" "develop" true (fun _ _ => true)).2.2
      (by decide) (by decide) (by decide)
    rw [h]
    simp

/-! ## C5: the Remote URL Resolver -/

/-- **C5, counterexample.**  The claim says an entry carrying an explicit
URL base uses that base directly with `.git` appended.  In the code the
explicit branch is guarded by the presence of the `url` key while the value
read is `url-base`: an entry with `url-base = "X"` but no `url` key is
resolved through the remote registry (`"https://r/p.git"`), not as
`"X.git"`. -/
theorem C5_counterexample :
    prepare_package_url (remoteDict [⟨"origin", some "https://r"⟩]) "origin"
        ⟨"p", none, none, none, some "X", none, none, false⟩ =
      .ok "https://r/p.git" ∧
    ("https://r/p.git" : String) ≠ "X.git" := by
  refine ⟨rfl, by decide⟩

/-- **C5** (amended).  The explicit branch of `prepare_package_url` triggers
on the presence of the `url` key and then uses the `url-base` value with
`.git` appended (`KeyError` when `url-base` is absent); otherwise the
default remote's `url-base` is taken (the entry's named remote overrides
it), `/` plus the repo-path override (or the name) and `.git` are appended;
a named remote missing from the registry (or lacking `url-base`) raises
`KeyError`, a `LookupError`; but when the default remote name itself is not
in the registry the resolver fails first with an `AttributeError` (from
`"".get(...)`), which is not a `LookupError`. -/
theorem C5_prepare_package_url (remotes : String → Option Remote)
    (dr : String) (pc : Project) :
    (∀ u b, pc.url = some u → pc.urlBase = some b →
      prepare_package_url remotes dr pc = .ok (b ++ ".git")) ∧
    (∀ u, pc.url = some u → pc.urlBase = none →
      prepare_package_url remotes dr pc = .error .keyError) ∧
    (∀ rdef, pc.url = none → remotes dr = some rdef → pc.remote = none →
      prepare_package_url remotes dr pc =
        .ok ((rdef.urlBase.getD "") ++ "/" ++
          (pc.repoPath.getD pc.name) ++ ".git")) ∧
    (∀ rdef rn rr rb, pc.url = none → remotes dr = some rdef →
      pc.remote = some rn → remotes rn = some rr → rr.urlBase = some rb →
      prepare_package_url remotes dr pc =
        .ok (rb ++ "/" ++ (pc.repoPath.getD pc.name) ++ ".git")) ∧
    (∀ rdef rn, pc.url = none → remotes dr = some rdef →
      pc.remote = some rn → remotes rn = none →
      prepare_package_url remotes dr pc = .error .keyError) ∧
    (pc.url = none → remotes dr = none →
      prepare_package_url remotes dr pc = .error .attributeError) := by
  refine ⟨?_, ?_, ?_, ?_, ?_, ?_⟩
  · intro u b hu hb
    simp [prepare_package_url, hu, hb]
  · intro u hu hb
    simp [prepare_package_url, hu, hb]
  · intro rdef hu hdr hr
    simp [prepare_package_url, hu, hdr, hr]
    rfl
  · intro rdef rn rr rb hu hdr hr hrn hrb
    simp [prepare_package_url, hu, hdr, hr, hrn, hrb]
    rfl
  · intro rdef rn hu hdr hr hrn
    simp [prepare_package_url, hu, hdr, hr, hrn]
    rfl
  · intro hu hdr
    simp [prepare_package_url, hu, hdr]
    rfl

/-- Witness for the amended C5: the three resolution shapes and the two
failure shapes at concrete registries and entries. -/
theorem C5_witness :
    prepare_package_url (remoteDict [⟨"origin", some "https://r"⟩]) "origin"
        ⟨"p", none, none, some "U", some "X", none, none, false⟩ =
      .ok "X.git" ∧
    prepare_package_url (remoteDict [⟨"origin", some "https://r"⟩]) "origin"
        ⟨"p", none, none, some "U", none, none, none, false⟩ =
      .error .keyError ∧
    prepare_package_url (remoteDict [⟨"origin", some "https://r"⟩]) "origin"
        ⟨"p", none, none, none, none, none, some "grp/repo", false⟩ =
      .ok "https://r/grp/repo.git" ∧
    prepare_package_url (remoteDict [⟨"origin", some "https://r"⟩,
        ⟨"alt", some "https://a"⟩]) "origin"
        ⟨"p", none, none, none, none, some "alt", none, false⟩ =
      .ok "https://a/p.git" ∧
    prepare_package_url (remoteDict [⟨"origin", some "https://r"⟩]) "origin"
        ⟨"p", none, none, none, none, some "gone", none, false⟩ =
      .error .keyError ∧
    prepare_package_url (remoteDict [⟨"origin", some "https://r"⟩]) "missing"
        ⟨"p", none, none, none, none, none, none, false⟩ =
      .error .attributeError := by
  refine ⟨?_, ?_, ?_, ?_, ?_, ?_⟩
  · exact (C5_prepare_package_url _ _ _).1 "U" "X" rfl rfl
  · exact (C5_prepare_package_url _ _ _).2.1 "U" rfl rfl
  · exact (C5_prepare_package_url _ _ _).2.2.1 ⟨"origin", some "https://r"⟩
      rfl rfl rfl
  · exact (C5_prepare_package_url _ _ _).2.2.2.1 ⟨"origin", some "https://r"⟩
      "alt" ⟨"alt", some "https://a"⟩ "https://a" rfl rfl rfl rfl rfl
  · exact (C5_prepare_package_url _ _ _).2.2.2.2.1 ⟨"origin", some "https://r"⟩
      "gone" rfl rfl rfl rfl
  · exact (C5_prepare_package_url _ _ _).2.2.2.2.2 rfl rfl

/-! ## C6: the Project Filter -/

/-- **C6.**  For every target context whose HAL allow-list is empty
(including unknown contexts), every entry whose name starts with `hal_` is
excluded; entries whose path starts with `tool` or whose name starts with
`nrf_hw_` are always excluded (when the entry has a path — a pathless entry
aborts with a `KeyError` before the path rules are reached, but the HAL rule
fires without consulting the path).  The filter is a pure function of the
entry and the context by construction. -/
theorem C6_project_filter (p : Project) (pl : String) :
    (halVendors pl = [] → startswith p.name "hal_" = true →
      is_project_required p pl = .ok false) ∧
    (∀ pa, p.path = some pa → startswith pa "tool" = true →
      is_project_required p pl = .ok false) ∧
    (∀ pa, p.path = some pa → startswith p.name "nrf_hw_" = true →
      is_project_required p pl = .ok false) := by
  refine ⟨?_, ?_, ?_⟩
  · intro h1 h2
    simp [is_project_required, h1, h2]
  · intro pa hpa ht
    unfold is_project_required
    rw [hpa]
    dsimp only
    split
    · rfl
    · simp [ht]
  · intro pa hpa hn
    unfold is_project_required
    rw [hpa]
    dsimp only
    split
    · rfl
    · simp [hn]

/-- Witness for C6: a HAL entry on a context with an empty allow-list, a
tooling entry, and a hardware-test entry, all concrete. -/
theorem C6_witness :
    is_project_required
        ⟨"hal_st", some "modules/hal/st", some "v", none, none, none, none,
          false⟩ "native" = .ok false ∧
    is_project_required
        ⟨"cmsis", some "tools/cmsis", some "v", none, none, none, none,
          false⟩ "ststm32" = .ok false ∧
    is_project_required
        ⟨"nrf_hw_models", some "modules/bsim_hw_models/nrf_hw_models",
          some "v", none, none, none, none, false⟩ "ststm32" = .ok false := by
  refine ⟨?_, ?_, ?_⟩
  · exact (C6_project_filter _ _).1 (by decide) (by decide)
  · exact (C6_project_filter _ _).2.1 "tools/cmsis" rfl (by decide)
  · exact (C6_project_filter _ _).2.2 "modules/bsim_hw_models/nrf_hw_models"
      rfl (by decide)

/-! ## C9: the empty-revision path -/

/-- **C9, counterexample.**  The claim says an empty revision makes the
Fetch Engine's install default to cloning `main` with a warning rather than
failing.  In the code `install_from_remote` asserts a truthy revision before
any clone, and `""` is falsy in Python: with an empty revision the install
raises `AssertionError`, runs no git command, and creates no directory. -/
theorem C9_counterexample :
    install_from_remote
        ⟨"p", some "p", some "", none, none, none, none, false⟩ "_pio/p"
        (remoteDict [⟨"origin", some "https://r"⟩]) "origin"
        (fun _ _ => true) ⟨["_pio"], none⟩ =
      (.error .assertionError, ⟨["_pio"], none⟩, []) := by
  rfl

/-- **C9** (amended).  An empty (or missing) revision is a hard
configuration error in the install path: `install_from_remote` raises
`AssertionError` before creating the destination directory or invoking git.
The defaulting-to-`main` behaviour exists only in the underlying
`clone_repository` routine — unreachable through install — and even there
no warning is emitted, because the verbosity flag is permanently false: the
trace of a clone with an empty revision is exactly the `--branch main
--depth 1` clone, followed only by the clone-error log line on failure. -/
theorem C9_empty_revision :
    (∀ (pc : Project) (dst : Path) (remotes : String → Option Remote)
      (dr : String) (g : GitOracle) (w : World) (u : String),
      pc.revision.getD "" = "" → prepare_package_url remotes dr pc = .ok u →
      install_from_remote pc dst remotes dr g w =
        (.error .assertionError, w, [])) ∧
    (∀ (dst url : String) (sub : Bool) (g : GitOracle),
      clone_repository dst url "" sub g =
        (if !(g (["git", "clone", "--branch", "main", "--depth", "1"] ++
                (if sub then ["--recursive"] else []) ++ [url, dst]) none) then
          (false,
            [Event.runGit (["git", "clone", "--branch", "main", "--depth",
                "1"] ++ (if sub then ["--recursive"] else []) ++ [url, dst])
                none,
             Event.note ("Error: Failed to clone project from `" ++ url ++
               "`!")])
        else
          (true,
            [Event.runGit (["git", "clone", "--branch", "main", "--depth",
                "1"] ++ (if sub then ["--recursive"] else []) ++ [url, dst])
                none]))) := by
  constructor
  · intro pc dst remotes dr g w u hrev hurl
    unfold install_from_remote
    rw [hurl]
    dsimp only
    rw [hrev]
    rfl
  · intro dst url sub g
    have hf : is_commit_hash "" = false := by decide
    rw [clone_repository_branch dst url "" sub g hf]
    rfl

/-- Witness for the amended C9: an install with an empty revision fails with
`AssertionError`, and a direct clone with an empty revision issues exactly
the `--branch main --depth 1` command. -/
theorem C9_witness :
    install_from_remote
        ⟨"q", some "q", some "", none, none, none, none, false⟩ "_pio/q"
        (remoteDict [⟨"origin", some "https://r"⟩]) "origin"
        (fun _ _ => true) ⟨[], none⟩ =
      (.error .assertionError, ⟨[], none⟩, []) ∧
    clone_repository "d" "u" "" false (fun _ _ => true) =
      (true, [Event.runGit (["git", "clone", "--branch", "main", "--depth",
        "1"] ++ [] ++ ["u", "d"]) none]) := by
  constructor
  · exact C9_empty_revision.1 _ "_pio/q" _ "origin" _ ⟨[], none⟩
      "https://r/q.git" rfl rfl
  · have h := C9_empty_revision.2 "d" "u" false (fun _ _ => true)
    simpa using h

/-! ## Unfolding lemmas for the orchestrator -/

theorem driftPhase_none (pf : Path) (ps : List Project) (w : World) :
    driftPhase pf ps none w = (.ok (), w, []) := rfl

theorem driftPhase_some (pf : Path) (ps : List Project)
    (s : List (String × String)) (w : World) :
    driftPhase pf ps (some s) w =
      (if s ≠ [] then clearDrifted pf (driftModified s (westDep ps)) w
       else (.ok (), w, [])) := rfl

theorem process_unfold (pl pf : String) (wm : WestManifest)
    (sm : Option (List (String × String))) (g : GitOracle) (w : World)
    (ps : List Project) (hpj : wm.projects = some ps) :
    process_bundled_projects pl pf wm sm g w =
      (match driftPhase pf ps sm (ensurePackagesFolder pf w).1 with
       | (.error e, w2, evs2) =>
         (.error e, w2, (ensurePackagesFolder pf w).2 ++ evs2)
       | (.ok (), w2, evs2) =>
         match wm.remotes with
         | none =>
           (.error .keyError, w2, (ensurePackagesFolder pf w).2 ++ evs2)
         | some rs =>
           match installLoop pl pf (remoteDict rs) wm.defaultsRemote g
               ps [] w2 with
           | (res, w3, evs3) =>
             (res, w3, (ensurePackagesFolder pf w).2 ++ evs2 ++ evs3)) := by
  unfold process_bundled_projects
  rw [hpj]

theorem process_none (pl pf : String) (wm : WestManifest)
    (sm : Option (List (String × String))) (g : GitOracle) (w : World)
    (hpj : wm.projects = none) :
    process_bundled_projects pl pf wm sm g w =
      (.error .assertionError, w, []) := by
  unfold process_bundled_projects
  rw [hpj]

/-- Unfolding `main` past the short-circuit and the git check, for a run
with no pre-existing state file and git available. -/
theorem main_unfold (pl : String) (sec : Bool) (pf : Path)
    (wm : WestManifest) (g : GitOracle) (w : World)
    (hstate : w.stateFile = none) :
    main pl sec true pf (some wm) g w =
      (match process_bundled_projects pl pf wm none g w with
       | (.error _, w1, evs) => ⟨1, w1, evs⟩
       | (.ok (result, state), w1, evs) =>
         if result = true ∧ state ≠ [] then
           ⟨0, (save_state state w1).1, evs ++ (save_state state w1).2⟩
         else if result = false then
           ⟨1, (clean_up pf w1).1, evs ++ (clean_up pf w1).2⟩
         else ⟨0, w1, evs⟩) := by
  unfold main
  rw [hstate]
  rfl

/-- Unfolding `main` for a secondary installation with a present state file
and git available. -/
theorem main_unfold_secondary (pl : String) (pf : Path) (wm : WestManifest)
    (g : GitOracle) (w : World) (s : List (String × String))
    (hstate : w.stateFile = some s) :
    main pl true true pf (some wm) g w =
      (match process_bundled_projects pl pf wm (some s) g w with
       | (.error _, w1, evs) => ⟨1, w1, evs⟩
       | (.ok (result, state), w1, evs) =>
         if result = true ∧ state ≠ [] then
           ⟨0, (save_state state w1).1, evs ++ (save_state state w1).2⟩
         else if result = false then
           ⟨1, (clean_up pf w1).1, evs ++ (clean_up pf w1).2⟩
         else ⟨0, w1, evs⟩) := by
  unfold main
  rw [hstate]
  rfl

/-- The short-circuit of `main`: state file present, not a secondary
installation. -/
theorem main_short_circuit (pl : String) (ga : Bool) (pf : Path)
    (wmo : Option WestManifest) (g : GitOracle) (w : World)
    (hstate : w.stateFile.isSome = true) :
    main pl false ga pf wmo g w = ⟨0, w, []⟩ := by
  unfold main
  rw [if_pos ⟨hstate, by simp⟩]

/-! ## Evaluation lemmas for single loop steps -/

theorem ensurePackagesFolder_stateFile (pf : Path) (w : World) :
    (ensurePackagesFolder pf w).1.stateFile = w.stateFile := by
  unfold ensurePackagesFolder
  split <;> rfl

theorem ensurePackagesFolder_not_mem {pf : Path} {w : World} {q : Path}
    (hq : q ∉ w.dirs) (hne : q ≠ pf) :
    q ∉ (ensurePackagesFolder pf w).1.dirs := by
  unfold ensurePackagesFolder
  split
  · exact hq
  · simp only [World.addDir, List.mem_cons]
    rintro (rfl | h)
    · exact hne rfl
    · exact hq h

theorem installStep_not_required {pl pf : String} {rm : String → Option Remote}
    {dr : String} {g : GitOracle} {p : Project}
    {r : List (String × String)} {w : World}
    (hreq : is_project_required p pl = .ok false) :
    installStep pl pf rm dr g p r w = .next r w [] := by
  unfold installStep
  rw [hreq]

theorem installStep_dir_exists {pl pf : String} {rm : String → Option Remote}
    {dr : String} {g : GitOracle} {p : Project}
    {r : List (String × String)} {w : World} {rev : String}
    (hreq : is_project_required p pl = .ok true)
    (hdir : pf ++ "/" ++ (p.path.getD p.name) ∈ w.dirs)
    (hrev : p.revision = some rev) :
    installStep pl pf rm dr g p r w = .next (dictSet r p.name rev) w [] := by
  unfold installStep
  rw [hreq]
  dsimp only
  rw [if_pos hdir, hrev]

theorem installStep_ignored {pl pf : String} {rm : String → Option Remote}
    {dr : String} {g : GitOracle} {p : Project}
    {r : List (String × String)} {w : World}
    (hreq : is_project_required p pl = .ok true)
    (hdir : pf ++ "/" ++ (p.path.getD p.name) ∉ w.dirs)
    (hign : p.name ∈ IGNORED_PACKAGES) :
    installStep pl pf rm dr g p r w = .next r w [] := by
  unfold installStep
  rw [hreq]
  dsimp only
  rw [if_neg hdir, if_pos hign]

/-- `install_from_remote` when the resolver succeeds but the revision is
missing or empty: the assert fires before any filesystem effect. -/
theorem install_from_remote_assert {pc : Project} {dst : Path}
    {rm : String → Option Remote} {dr : String} {g : GitOracle} {w : World}
    {u : String} (hurl : prepare_package_url rm dr pc = .ok u)
    (hrev : pc.revision.getD "" = "") :
    install_from_remote pc dst rm dr g w = (.error .assertionError, w, []) := by
  unfold install_from_remote
  rw [hurl]
  dsimp only
  rw [if_pos (by rw [hrev]; rfl)]

/-- `install_from_remote` with a resolvable URL and a truthy revision:
create the destination directory, then clone. -/
theorem install_from_remote_eval {pc : Project} {dst : Path}
    {rm : String → Option Remote} {dr : String} {g : GitOracle} {w : World}
    {u rev : String} (hurl : prepare_package_url rm dr pc = .ok u)
    (hrev : pc.revision = some rev) (hne : rev ≠ "") :
    install_from_remote pc dst rm dr g w =
      (.ok (clone_repository dst u rev pc.submodules g).1, w.addDir dst,
        Event.mkdir dst :: (clone_repository dst u rev pc.submodules g).2) := by
  unfold install_from_remote
  rw [hurl]
  dsimp only
  rw [hrev]
  rw [if_neg (by simp [hne])]
  rfl

/-- The argument list `clone_repository` builds for a non-hash revision. -/
def branchCloneArgs (rev : String) (sub : Bool) (url dst : String) :
    List String :=
  ["git", "clone", "--branch", rev, "--depth", "1"] ++
    (if sub then ["--recursive"] else []) ++ [url, dst]

/-- One loop step over a required, absent, non-ignored entry pinned to a
nonempty non-hash revision: the step creates the package directory, runs
exactly one shallow branch clone, and either continues with the revision
recorded (clone succeeded) or halts the loop (clone failed). -/
theorem installStep_branch {pl pf : String} {rm : String → Option Remote}
    {dr : String} {g : GitOracle} {p : Project}
    {r : List (String × String)} {w : World} {u rev : String} {b : Bool}
    (hreq : is_project_required p pl = .ok true)
    (hdir : pf ++ "/" ++ (p.path.getD p.name) ∉ w.dirs)
    (hign : p.name ∉ IGNORED_PACKAGES)
    (hurl : prepare_package_url rm dr p = .ok u)
    (hrev : p.revision = some rev) (hne : rev ≠ "")
    (hhash : is_commit_hash rev = false)
    (hgit : g (branchCloneArgs rev p.submodules u
      (pf ++ "/" ++ (p.path.getD p.name))) none = b) :
    installStep pl pf rm dr g p r w =
      (if b then
        .next (dictSet r p.name rev)
          (w.addDir (pf ++ "/" ++ (p.path.getD p.name)))
          [Event.note ("Installing `" ++ p.name ++ "` project"),
           Event.mkdir (pf ++ "/" ++ (p.path.getD p.name)),
           Event.runGit (branchCloneArgs rev p.submodules u
             (pf ++ "/" ++ (p.path.getD p.name))) none]
      else
        .halt r (w.addDir (pf ++ "/" ++ (p.path.getD p.name)))
          [Event.note ("Installing `" ++ p.name ++ "` project"),
           Event.mkdir (pf ++ "/" ++ (p.path.getD p.name)),
           Event.runGit (branchCloneArgs rev p.submodules u
             (pf ++ "/" ++ (p.path.getD p.name))) none,
           Event.note ("Error: Failed to clone project from `" ++ u ++ "`!"),
           Event.note ("Failed to install the `" ++ p.name ++
             "` project!")]) := by
  unfold installStep
  rw [hreq]
  dsimp only
  rw [if_neg hdir, if_neg hign,
    install_from_remote_eval hurl hrev hne,
    clone_repository_branch _ _ _ _ _ hhash]
  rw [show (rev == "") = false from beq_eq_false_iff_ne.mpr hne]
  simp only [Bool.false_eq_true, if_false]
  have hargs : (["git", "clone", "--branch", rev, "--depth", "1"] ++
      (if p.submodules then ["--recursive"] else []) ++
      [u, pf ++ "/" ++ (p.path.getD p.name)]) =
      branchCloneArgs rev p.submodules u
        (pf ++ "/" ++ (p.path.getD p.name)) := rfl
  rw [hargs, hgit]
  cases b <;> simp [hrev]

/-! ## C4: malformed manifests -/

/-- **C4, counterexample.**  The claim says every malformed manifest aborts
before performing any filesystem mutation.  A manifest missing the `remotes`
collection (with an empty `projects` list) on a clean filesystem aborts with
exit 1 only *after* creating the package-cache folder: the trace contains a
`mkdir` and the final world contains the new directory. -/
theorem C4_counterexample :
    main "pl" false true "_pio" (some ⟨some [], "", none⟩) (fun _ _ => true)
        ⟨[], none⟩ =
      ⟨1, ⟨["_pio"], none⟩, [Event.mkdir "_pio"]⟩ := by
  rfl

/-- **C4** (amended).  A manifest missing `projects` aborts before any
filesystem mutation (the assert precedes the folder creation).  A manifest
missing `remotes`, or a required entry lacking a revision, still aborts the
run with exit 1 before any fetch is attempted — no git command is in the
trace — but possibly after the package folder has been created: missing
`remotes` leaves exactly the folder-creation event, and a missing revision
additionally logs the "Installing" line of the offending entry before the
assert fires. -/
theorem C4_malformed_manifest (pl : String) (sec : Bool) (pf : Path)
    (wm : WestManifest) (g : GitOracle) (w : World)
    (hstate : w.stateFile = none) :
    (wm.projects = none → main pl sec true pf (some wm) g w = ⟨1, w, []⟩) ∧
    (∀ ps, wm.projects = some ps → wm.remotes = none →
      main pl sec true pf (some wm) g w =
        ⟨1, (ensurePackagesFolder pf w).1, (ensurePackagesFolder pf w).2⟩) ∧
    (∀ p rs u, wm.projects = some [p] → wm.remotes = some rs →
      p.revision = none →
      is_project_required p pl = .ok true →
      pf ++ "/" ++ (p.path.getD p.name) ∉ w.dirs →
      p.name ∉ IGNORED_PACKAGES →
      prepare_package_url (remoteDict rs) wm.defaultsRemote p = .ok u →
      main pl sec true pf (some wm) g w =
        ⟨1, (ensurePackagesFolder pf w).1,
          (ensurePackagesFolder pf w).2 ++
            [Event.note ("Installing `" ++ p.name ++ "` project")]⟩) := by
  have hrun := main_unfold pl sec pf wm g w hstate
  refine ⟨?_, ?_, ?_⟩
  · intro hpj
    rw [hrun, process_none pl pf wm none g w hpj]
  · intro ps hpj hrm
    rw [hrun, process_unfold pl pf wm none g w ps hpj,
      driftPhase_none pf ps (ensurePackagesFolder pf w).1]
    dsimp only
    rw [hrm]
    simp
  · intro p rs u hpj hrm hrev hreq hdir hign hurl
    rw [hrun, process_unfold pl pf wm none g w [p] hpj,
      driftPhase_none pf [p] (ensurePackagesFolder pf w).1]
    dsimp only
    rw [hrm]
    dsimp only
    have hdir1 : pf ++ "/" ++ (p.path.getD p.name) ∉
        (ensurePackagesFolder pf w).1.dirs :=
      ensurePackagesFolder_not_mem hdir (childPath_ne pf _)
    have hstep : installStep pl pf (remoteDict rs) wm.defaultsRemote g p []
        (ensurePackagesFolder pf w).1 =
        .raise .assertionError (ensurePackagesFolder pf w).1
          [Event.note ("Installing `" ++ p.name ++ "` project")] := by
      unfold installStep
      rw [hreq]
      dsimp only
      rw [if_neg hdir1, if_neg hign,
        install_from_remote_assert hurl (by rw [hrev]; rfl)]
    rw [installLoop_cons, hstep]
    simp

/-- Witness for the amended C4 at concrete manifests: missing `projects`,
missing `remotes`, and a single required entry without a revision. -/
theorem C4_witness :
    main "pl" false true "_pio" (some ⟨none, "", some []⟩) (fun _ _ => true)
        ⟨[], none⟩ = ⟨1, ⟨[], none⟩, []⟩ ∧
    main "pl" false true "_pio" (some ⟨some [], "", none⟩) (fun _ _ => true)
        ⟨["_pio"], none⟩ = ⟨1, ⟨["_pio"], none⟩, []⟩ ∧
    main "pl" false true "_pio"
        (some ⟨some [⟨"zephyr", some "zephyr", none, none, none, none, none,
          false⟩], "origin", some [⟨"origin", some "https://r"⟩]⟩)
        (fun _ _ => true) ⟨[], none⟩ =
      ⟨1, ⟨["_pio"], none⟩,
        [Event.mkdir "_pio", Event.note "Installing `zephyr` project"]⟩ := by
  refine ⟨?_, ?_, ?_⟩
  · exact (C4_malformed_manifest "pl" false "_pio" _ _ _ rfl).1 rfl
  · have h := (C4_malformed_manifest "pl" false "_pio" ⟨some [], "", none⟩
      (fun _ _ => true) ⟨["_pio"], none⟩ rfl).2.1 [] rfl rfl
    simpa using h
  · have h := (C4_malformed_manifest "pl" false "_pio"
      ⟨some [⟨"zephyr", some "zephyr", none, none, none, none, none, false⟩],
        "origin", some [⟨"origin", some "https://r"⟩]⟩
      (fun _ _ => true) ⟨[], none⟩ rfl).2.2
      ⟨"zephyr", some "zephyr", none, none, none, none, none, false⟩
      [⟨"origin", some "https://r"⟩] "https://r/zephyr.git"
      rfl rfl rfl rfl (by decide) (by decide) rfl
    simpa using h

/-! ## C8: when the state record is persisted -/

theorem process_no_saveState {pl pf : String} {wm : WestManifest}
    {sm : Option (List (String × String))} {g : GitOracle} {w : World}
    (s : List (String × String)) :
    Event.saveState s ∉ (process_bundled_projects pl pf wm sm g w).2.2 := by
  intro hmem
  rcases process_bundled_projects_events hmem with
      ⟨a, c, h⟩ | ⟨m, h⟩ | ⟨q, h⟩ | ⟨q, h⟩ <;>
    exact Event.noConfusion h

theorem clean_up_events {pf : Path} {w : World} {e : Event}
    (he : e ∈ (clean_up pf w).2) : e = Event.rmtree pf := by
  unfold clean_up at he
  split at he <;>
    simp only [List.mem_singleton, List.not_mem_nil] at he
  exact he

/-- **C8, counterexample.**  The claim says that whenever all required
entries are processed without a fetch failure, the full accumulated state
record is persisted to the state file at the end of the run.  A run over a
manifest with an empty `projects` list processes all (zero) required entries
without failure and exits 0, yet writes no state file: the record is empty,
and `if result and state:` skips the save on an empty (falsy) dict. -/
theorem C8_counterexample :
    main "pl" false true "_pio" (some ⟨some [], "", some []⟩)
        (fun _ _ => true) ⟨[], none⟩ =
      ⟨0, ⟨["_pio"], none⟩, [Event.mkdir "_pio"]⟩ := by
  rfl

/-- **C8** (amended).  On a run whose processing succeeds: if the
accumulated record is nonempty it is persisted in full to the state file at
the end of the run (exit 0); if it is empty, the run still exits 0 but
nothing is written.  Conversely the state file is written only on full
success: any `saveState` event in the trace implies the processing returned
`(True, record)` with exactly that nonempty record. -/
theorem C8_state_persistence (pl : String) (sec : Bool) (pf : Path)
    (wm : WestManifest) (g : GitOracle) (w : World)
    (hstate : w.stateFile = none) :
    (∀ state w1 evs,
      process_bundled_projects pl pf wm none g w = (.ok (true, state), w1, evs) →
      state ≠ [] →
      main pl sec true pf (some wm) g w =
        ⟨0, { w1 with stateFile := some state },
          evs ++ [Event.saveState state]⟩) ∧
    (∀ state w1 evs,
      process_bundled_projects pl pf wm none g w = (.ok (true, state), w1, evs) →
      state = [] →
      main pl sec true pf (some wm) g w = ⟨0, w1, evs⟩) ∧
    (∀ s, Event.saveState s ∈ (main pl sec true pf (some wm) g w).events →
      ∃ w1 evs,
        process_bundled_projects pl pf wm none g w =
          (.ok (true, s), w1, evs) ∧ s ≠ []) := by
  have hrun := main_unfold pl sec pf wm g w hstate
  refine ⟨?_, ?_, ?_⟩
  · intro state w1 evs hproc hne
    rw [hrun, hproc]
    dsimp only
    rw [if_pos ⟨rfl, hne⟩]
    rfl
  · intro state w1 evs hproc hnil
    rw [hrun, hproc]
    dsimp only
    rw [if_neg (by simp [hnil]), if_neg (by simp)]
  · intro s hmem
    rw [hrun] at hmem
    rcases hproc : process_bundled_projects pl pf wm none g w with
      ⟨res, w1, evs⟩
    rw [hproc] at hmem
    have hnp : Event.saveState s ∉ evs := by
      have := @process_no_saveState pl pf wm none g w s
      rw [hproc] at this
      exact this
    rcases res with e | ⟨result, state⟩
    · exact absurd hmem hnp
    · dsimp only at hmem
      by_cases hc : result = true ∧ state ≠ []
      · rw [if_pos hc] at hmem
        rcases List.mem_append.mp hmem with hmem | hmem
        · exact absurd hmem hnp
        · simp only [save_state, List.mem_singleton] at hmem
          injection hmem with hs
          subst hs
          exact ⟨w1, evs, by simp [hproc, hc.1], hc.2⟩
      · rw [if_neg hc] at hmem
        split at hmem
        · rcases List.mem_append.mp hmem with hmem | hmem
          · exact absurd hmem hnp
          · exact Event.noConfusion (clean_up_events hmem)
        · exact absurd hmem hnp

/-- Witness for the amended C8: a one-project manifest persists its record;
an empty manifest exits 0 without writing; and the only save in the first
trace is licensed by the converse direction. -/
theorem C8_witness :
    main "pl" false true "_pio"
        (some ⟨some [⟨"projA", some "projA", some "v1", none, none, none,
          none, false⟩], "origin", some [⟨"origin", some "https://r"⟩]⟩)
        (fun _ _ => true) ⟨[], none⟩ =
      ⟨0, ⟨["_pio/projA", "_pio"], some [("projA", "v1")]⟩,
        [Event.mkdir "_pio",
         Event.note "Installing `projA` project",
         Event.mkdir "_pio/projA",
         Event.runGit ["git", "clone", "--branch", "v1", "--depth", "1",
           "https://r/projA.git", "_pio/projA"] none,
         Event.saveState [("projA", "v1")]]⟩ ∧
    main "pl" false true "_pio" (some ⟨some [], "", some []⟩)
        (fun _ _ => true) ⟨[], none⟩ = ⟨0, ⟨["_pio"], none⟩,
          [Event.mkdir "_pio"]⟩ ∧
    (∃ w1 evs,
      process_bundled_projects "pl" "_pio"
          ⟨some [⟨"projA", some "projA", some "v1", none, none, none, none,
            false⟩], "origin", some [⟨"origin", some "https://r"⟩]⟩
          none (fun _ _ => true) ⟨[], none⟩ =
        (.ok (true, [("projA", "v1")]), w1, evs) ∧
      ([("projA", "v1")] : List (String × String)) ≠ []) := by
  refine ⟨?_, ?_, ?_⟩
  · have h := (C8_state_persistence "pl" false "_pio"
      ⟨some [⟨"projA", some "projA", some "v1", none, none, none, none,
        false⟩], "origin", some [⟨"origin", some "https://r"⟩]⟩
      (fun _ _ => true) ⟨[], none⟩ rfl).1 [("projA", "v1")]
      ⟨["_pio/projA", "_pio"], none⟩
      [Event.mkdir "_pio",
       Event.note "Installing `projA` project",
       Event.mkdir "_pio/projA",
       Event.runGit ["git", "clone", "--branch", "v1", "--depth", "1",
         "https://r/projA.git", "_pio/projA"] none]
      rfl (by decide)
    simpa using h
  · have h := (C8_state_persistence "pl" false "_pio"
      ⟨some [], "", some []⟩ (fun _ _ => true) ⟨[], none⟩ rfl).2.1
      [] ⟨["_pio"], none⟩ [Event.mkdir "_pio"] rfl rfl
    simpa using h
  · exact (C8_state_persistence "pl" false "_pio"
      ⟨some [⟨"projA", some "projA", some "v1", none, none, none, none,
        false⟩], "origin", some [⟨"origin", some "https://r"⟩]⟩
      (fun _ _ => true) ⟨[], none⟩ rfl).2.2 [("projA", "v1")] (by decide)

/-! ## C2: drift detection and invalidation -/

theorem underDir_child_parent (pf x : Path) :
    underDir (pf ++ "/" ++ x) pf = false := by
  apply not_underDir_of_length (Ne.symm (childPath_ne pf x))
  rw [String.length_append, String.length_append]
  have h1 : String.length "/" = 1 := rfl
  omega

theorem installLoop_no_rmtree {pl pf : String} {rm : String → Option Remote}
    {dr : String} {g : GitOracle} {ps : List Project}
    {r : List (String × String)} {w : World} (q : Path) :
    Event.rmtree q ∉ (installLoop pl pf rm dr g ps r w).2.2 := by
  intro hmem
  rcases installLoop_events hmem with ⟨a, c, h⟩ | ⟨m, h⟩ | ⟨p', h⟩ <;>
    exact Event.noConfusion h

/-- With no prior state record the drift phase is skipped entirely: no
directory is ever removed during the run's processing. -/
theorem process_no_prior_state_no_rmtree (pl pf : String)
    (wm : WestManifest) (g : GitOracle) (w : World) (q : Path) :
    Event.rmtree q ∉ (process_bundled_projects pl pf wm none g w).2.2 := by
  intro hmem
  rcases hpj : wm.projects with _ | ps
  · rw [process_none pl pf wm none g w hpj] at hmem
    simp at hmem
  · rw [process_unfold pl pf wm none g w ps hpj,
      driftPhase_none pf ps (ensurePackagesFolder pf w).1] at hmem
    dsimp only at hmem
    rcases hrm : wm.remotes with _ | rs <;> rw [hrm] at hmem
    · dsimp only at hmem
      rw [List.append_nil] at hmem
      exact Event.noConfusion (ensurePackagesFolder_events hmem)
    · dsimp only at hmem
      rcases hloop : installLoop pl pf (remoteDict rs) wm.defaultsRemote g
          ps [] (ensurePackagesFolder pf w).1 with ⟨res, w3, evs3⟩
      rw [hloop] at hmem
      dsimp only at hmem
      rw [List.append_nil] at hmem
      rcases List.mem_append.mp hmem with hmem | hmem
      · exact Event.noConfusion (ensurePackagesFolder_events hmem)
      · have : Event.rmtree q ∈ (installLoop pl pf (remoteDict rs)
            wm.defaultsRemote g ps [] (ensurePackagesFolder pf w).1).2.2 := by
          rw [hloop]; exact hmem
        exact installLoop_no_rmtree q this

/-- **C2.**  (1) With a prior record pinning the project to `v1` and the
manifest pinning it to `v2 ≠ v1`, a (secondary) run removes the existing
package directory, then re-fetches the project — the deletion precedes the
single git clone in the trace — and the final persisted state maps the
project to `v2`; the trace contains exactly one git invocation.  (2) With
no prior record, no invalidation occurs: the processing never removes a
directory.  (3) Clearing a drifted package whose directory is already
absent just logs "Package path not found" and changes nothing. -/
theorem C2_drift_invalidation (pl pf : String) (p : Project) (pa : String)
    (rs : List Remote) (dr : String) (g : GitOracle) (u v1 v2 : String)
    (hpa : p.path = some pa)
    (hreq : is_project_required p pl = .ok true)
    (hrev : p.revision = some v2)
    (hne12 : v1 ≠ v2) (hv2 : v2 ≠ "")
    (hhash : is_commit_hash v2 = false)
    (hign : p.name ∉ IGNORED_PACKAGES)
    (hurl : prepare_package_url (remoteDict rs) dr p = .ok u)
    (hgit : g (branchCloneArgs v2 p.submodules u (pf ++ "/" ++ pa))
      none = true) :
    (main pl true true pf (some ⟨some [p], dr, some rs⟩) g
        ⟨[pf, pf ++ "/" ++ pa], some [(p.name, v1)]⟩ =
      ⟨0, ⟨[pf ++ "/" ++ pa, pf], some [(p.name, v2)]⟩,
        [Event.note ("Package " ++ p.name ++
           " version differs from west.yml.. Upgrading to " ++ v2),
         Event.rmtree (pf ++ "/" ++ pa),
         Event.note ("Installing `" ++ p.name ++ "` project"),
         Event.mkdir (pf ++ "/" ++ pa),
         Event.runGit (branchCloneArgs v2 p.submodules u (pf ++ "/" ++ pa))
           none,
         Event.saveState [(p.name, v2)]]⟩) ∧
    (∀ (wm : WestManifest) (w : World) (q : Path),
      Event.rmtree q ∉ (process_bundled_projects pl pf wm none g w).2.2) ∧
    (∀ (w : World), pf ++ "/" ++ pa ∉ w.dirs →
      clear_deprecated_package pa pf w =
        (w, [Event.note "Package path not found"])) := by
  refine ⟨?_, ?_, ?_⟩
  · set dirA := pf ++ "/" ++ pa with hdirA
    set w0 : World := ⟨[pf, dirA], some [(p.name, v1)]⟩ with hw0
    rw [main_unfold_secondary pl pf _ g w0 [(p.name, v1)] rfl]
    rw [process_unfold pl pf _ (some [(p.name, v1)]) g w0 [p] rfl]
    have hens : ensurePackagesFolder pf w0 = (w0, []) := by
      unfold ensurePackagesFolder
      rw [if_pos (by simp [hw0])]
    rw [hens]
    dsimp only
    rw [driftPhase_some]
    rw [if_pos (by simp)]
    have hdm : driftModified [(p.name, v1)] (westDep [p]) =
        [⟨p.name, v1, some v2, some pa⟩] := by
      unfold driftModified westDep
      simp [hrev, hpa, Ne.symm hne12]
    rw [hdm]
    rw [clearDrifted]
    dsimp only
    have hclr : clear_deprecated_package pa pf w0 =
        (⟨[pf], if (dirA ++ "/").data.isPrefixOf
            (pf ++ "/state.json").data then none
          else some [(p.name, v1)]⟩,
         [Event.rmtree dirA]) := by
      unfold clear_deprecated_package
      rw [← hdirA, if_pos (by simp [hw0])]
      unfold World.rmtree
      simp [hw0, List.filter, underDir_self, underDir_child_parent pf pa,
        ← hdirA]
    rw [hclr, clearDrifted]
    dsimp only
    set wA : World := ⟨[pf], if (dirA ++ "/").data.isPrefixOf
        (pf ++ "/state.json").data then none
      else some [(p.name, v1)]⟩ with hwA
    rw [installLoop_cons]
    have hdir1 : pf ++ "/" ++ (p.path.getD p.name) ∉ wA.dirs := by
      rw [hpa]
      simp [hwA]
      exact childPath_ne pf pa
    have hstep := @installStep_branch pl pf (remoteDict rs) dr g p [] wA
      u v2 true
      hreq hdir1 hign hurl hrev hv2 hhash (by rw [hpa]; exact hgit)
    rw [if_pos rfl] at hstep
    rw [hstep]
    dsimp only
    rw [installLoop_nil]
    dsimp only
    rw [if_pos ⟨rfl, by simp [dictSet]⟩]
    unfold save_state
    simp [dictSet, World.addDir, hwA, hpa]
  · intro wm w q
    exact process_no_prior_state_no_rmtree pl pf wm g w q
  · intro w hdir
    unfold clear_deprecated_package
    rw [if_neg hdir]

/-- Witness for C2: a concrete drifted project (`v1` recorded, `v2` pinned)
is invalidated and re-fetched exactly once, and clearing an absent drifted
directory is only logged. -/
theorem C2_witness :
    main "pl" true true "_pio"
        (some ⟨some [⟨"projA", some "modules/projA", some "v2", none, none,
          none, none, false⟩], "origin",
          some [⟨"origin", some "https://r"⟩]⟩)
        (fun _ _ => true)
        ⟨["_pio", "_pio/modules/projA"], some [("projA", "v1")]⟩ =
      ⟨0, ⟨["_pio/modules/projA", "_pio"], some [("projA", "v2")]⟩,
        [Event.note
           "Package projA version differs from west.yml.. Upgrading to v2",
         Event.rmtree "_pio/modules/projA",
         Event.note "Installing `projA` project",
         Event.mkdir "_pio/modules/projA",
         Event.runGit ["git", "clone", "--branch", "v2", "--depth", "1",
           "https://r/projA.git", "_pio/modules/projA"] none,
         Event.saveState [("projA", "v2")]]⟩ ∧
    clear_deprecated_package "modules/projA" "_pio" ⟨["_pio"], none⟩ =
      (⟨["_pio"], none⟩, [Event.note "Package path not found"]) := by
  constructor
  · have h := (C2_drift_invalidation "pl" "_pio"
      ⟨"projA", some "modules/projA", some "v2", none, none, none, none,
        false⟩ "modules/projA" [⟨"origin", some "https://r"⟩] "origin"
      (fun _ _ => true) "https://r/projA.git" "v1" "v2"
      rfl rfl rfl (by decide) (by decide) (by decide) (by decide)
      rfl rfl).1
    simpa [branchCloneArgs] using h
  · exact (C2_drift_invalidation "pl" "_pio"
      ⟨"projA", some "modules/projA", some "v2", none, none, none, none,
        false⟩ "modules/projA" [⟨"origin", some "https://r"⟩] "origin"
      (fun _ _ => true) "https://r/projA.git" "v1" "v2"
      rfl rfl rfl (by decide) (by decide) (by decide) (by decide)
      rfl rfl).2.2 ⟨["_pio"], none⟩ (by decide)

/-! ## C1: fail-fast with full cleanup -/

/-- The world carried by a step outcome. -/
def StepOutcome.world : StepOutcome → World
  | .raise _ w _ => w
  | .halt _ w _ => w
  | .next _ w _ => w

theorem installStep_world_dirs {pl pf : String} {rm : String → Option Remote}
    {dr : String} {g : GitOracle} {p : Project}
    {r : List (String × String)} {w : World} {d : Path} (hd : d ∈ w.dirs) :
    d ∈ (installStep pl pf rm dr g p r w).world.dirs := by
  unfold installStep
  rcases hreq : is_project_required p pl with e' | b
  · exact hd
  · cases b with
    | false => exact hd
    | true =>
      dsimp only
      split
      · split
        · exact hd
        · exact hd
      · split
        · exact hd
        · rcases hins : install_from_remote p
              (pf ++ "/" ++ (p.path.getD p.name)) rm dr g w with ⟨res, w', evs⟩
          have hw' : d ∈ w'.dirs := by
            unfold install_from_remote at hins
            split at hins
            · cases hins; exact hd
            · split at hins
              · cases hins; exact hd
              · cases hins
                exact List.mem_cons_of_mem _ hd
          rcases res with e' | ok
          · exact hw'
          · cases ok with
            | false => exact hw'
            | true =>
              cases p.revision with
              | none => exact hw'
              | some rev => exact hw'

theorem installLoop_world_dirs {pl pf : String} {rm : String → Option Remote}
    {dr : String} {g : GitOracle} {d : Path} :
    ∀ {ps : List Project} {r : List (String × String)} {w : World},
      d ∈ w.dirs → d ∈ (installLoop pl pf rm dr g ps r w).2.1.dirs
  | [], r, w, hd => by rw [installLoop_nil]; exact hd
  | p :: ps, r, w, hd => by
    rw [installLoop_cons]
    have hstep := @installStep_world_dirs pl pf rm dr g p r w d hd
    rcases hout : installStep pl pf rm dr g p r w with
        ⟨e', w', evs⟩ | ⟨r', w', evs⟩ | ⟨r', w', evs⟩ <;>
      rw [hout] at hstep
    · exact hstep
    · exact hstep
    · dsimp only
      rcases hrec : installLoop pl pf rm dr g ps r' w' with ⟨res, w'', evs'⟩
      have := @installLoop_world_dirs pl pf rm dr g d ps r' w' hstep
      rw [hrec] at this
      exact this

/-- Appending to the project list of a fully successful loop run continues
from the accumulated result and world, concatenating the traces. -/
theorem installLoop_append {pl pf : String} {rm : String → Option Remote}
    {dr : String} {g : GitOracle} :
    ∀ {ps : List Project} {qs : List Project} {r r' : List (String × String)}
      {w w' : World} {evs : List Event},
      installLoop pl pf rm dr g ps r w = (.ok (true, r'), w', evs) →
      installLoop pl pf rm dr g (ps ++ qs) r w =
        ((installLoop pl pf rm dr g qs r' w').1,
         (installLoop pl pf rm dr g qs r' w').2.1,
         evs ++ (installLoop pl pf rm dr g qs r' w').2.2)
  | [], qs, r, r', w, w', evs, h => by
    rw [installLoop_nil] at h
    simp only [Prod.mk.injEq, Except.ok.injEq, true_and] at h
    obtain ⟨h1, h2, h3⟩ := h
    subst h1
    subst h2
    rw [← h3]
    simp
  | p :: ps, qs, r, r', w, w', evs, h => by
    rw [installLoop_cons] at h
    rw [List.cons_append, installLoop_cons]
    rcases hout : installStep pl pf rm dr g p r w with
        ⟨e', w₁, evs₁⟩ | ⟨r₁, w₁, evs₁⟩ | ⟨r₁, w₁, evs₁⟩ <;> rw [hout] at h
    · exact absurd h (by simp)
    · exact absurd h (by simp)
    · dsimp only at h ⊢
      rcases hrec : installLoop pl pf rm dr g ps r₁ w₁ with ⟨res, w₂, evs₂⟩
      rw [hrec] at h
      dsimp only at h
      simp only [Prod.mk.injEq] at h
      obtain ⟨hres, hw, hevs⟩ := h
      rw [hres] at hrec
      have ih := @installLoop_append pl pf rm dr g ps qs _ _ _ _ _ hrec
      rw [hw] at ih
      rw [ih]
      dsimp only
      rw [← hevs]
      simp

theorem ensurePackagesFolder_pf_mem (pf : Path) (w : World) :
    pf ∈ (ensurePackagesFolder pf w).1.dirs := by
  unfold ensurePackagesFolder
  split
  · assumption
  · exact List.mem_cons_self _ _

theorem ensurePackagesFolder_idem {pf : Path} {w : World}
    (h : pf ∈ w.dirs) : ensurePackagesFolder pf w = (w, []) := by
  unfold ensurePackagesFolder
  rw [if_pos h]

/-- **C1.**  For a manifest whose projects are `ps ++ B :: cs`, where the
prefix `ps` installs successfully (accumulating record `rA`, world `wA`,
trace `evsA`) and fetching the required entry `B` fails, the run halts at
`B`: the suffix `cs` is never reached (the whole trace is the prefix trace,
B's events and the final cleanup — every git command in it is either from
the prefix or B's single clone), the entire package-cache tree is removed
(neither the cache folder nor anything under it survives), no state file
exists at the end, no `saveState` event ever occurs, and the run exits 1. -/
theorem C1_fail_fast (pl pf dr : String) (ps cs : List Project) (B : Project)
    (rs : List Remote) (g : GitOracle) (w : World)
    (rA : List (String × String)) (wA : World) (evsA : List Event)
    (u vB : String)
    (hstate : w.stateFile = none)
    (hpre : installLoop pl pf (remoteDict rs) dr g ps []
      (ensurePackagesFolder pf w).1 = (.ok (true, rA), wA, evsA))
    (hreqB : is_project_required B pl = .ok true)
    (hdirB : pf ++ "/" ++ (B.path.getD B.name) ∉ wA.dirs)
    (hignB : B.name ∉ IGNORED_PACKAGES)
    (hurlB : prepare_package_url (remoteDict rs) dr B = .ok u)
    (hrevB : B.revision = some vB) (hvB : vB ≠ "")
    (hhashB : is_commit_hash vB = false)
    (hgitB : g (branchCloneArgs vB B.submodules u
      (pf ++ "/" ++ (B.path.getD B.name))) none = false) :
    main pl false true pf (some ⟨some (ps ++ B :: cs), dr, some rs⟩) g w =
      ⟨1,
       ⟨(wA.addDir (pf ++ "/" ++ (B.path.getD B.name))).dirs.filter
          (fun d => !underDir pf d), none⟩,
       (ensurePackagesFolder pf w).2 ++ (evsA ++
         [Event.note ("Installing `" ++ B.name ++ "` project"),
          Event.mkdir (pf ++ "/" ++ (B.path.getD B.name)),
          Event.runGit (branchCloneArgs vB B.submodules u
            (pf ++ "/" ++ (B.path.getD B.name))) none,
          Event.note ("Error: Failed to clone project from `" ++ u ++ "`!"),
          Event.note ("Failed to install the `" ++ B.name ++ "` project!"),
          Event.rmtree pf])⟩ ∧
    pf ∉ (wA.addDir (pf ++ "/" ++ (B.path.getD B.name))).dirs.filter
      (fun d => !underDir pf d) ∧
    (∀ x, pf ++ "/" ++ x ∉
      (wA.addDir (pf ++ "/" ++ (B.path.getD B.name))).dirs.filter
        (fun d => !underDir pf d)) ∧
    (∀ s, Event.saveState s ∉
      (ensurePackagesFolder pf w).2 ++ (evsA ++
        [Event.note ("Installing `" ++ B.name ++ "` project"),
         Event.mkdir (pf ++ "/" ++ (B.path.getD B.name)),
         Event.runGit (branchCloneArgs vB B.submodules u
           (pf ++ "/" ++ (B.path.getD B.name))) none,
         Event.note ("Error: Failed to clone project from `" ++ u ++ "`!"),
         Event.note ("Failed to install the `" ++ B.name ++ "` project!"),
         Event.rmtree pf])) ∧
    (∀ a c, Event.runGit a c ∈
      (ensurePackagesFolder pf w).2 ++ (evsA ++
        [Event.note ("Installing `" ++ B.name ++ "` project"),
         Event.mkdir (pf ++ "/" ++ (B.path.getD B.name)),
         Event.runGit (branchCloneArgs vB B.submodules u
           (pf ++ "/" ++ (B.path.getD B.name))) none,
         Event.note ("Error: Failed to clone project from `" ++ u ++ "`!"),
         Event.note ("Failed to install the `" ++ B.name ++ "` project!"),
         Event.rmtree pf]) →
      Event.runGit a c ∈ evsA ∨
        a = branchCloneArgs vB B.submodules u
          (pf ++ "/" ++ (B.path.getD B.name))) := by
  have hpfA : pf ∈ wA.dirs := by
    have h := @installLoop_world_dirs pl pf (remoteDict rs) dr g pf ps []
      (ensurePackagesFolder pf w).1
      (ensurePackagesFolder_pf_mem pf w)
    rw [hpre] at h
    exact h
  have hstepB := @installStep_branch pl pf (remoteDict rs) dr g B rA wA
    u vB false
    hreqB hdirB hignB hurlB hrevB hvB hhashB hgitB
  simp only [Bool.false_eq_true, if_false] at hstepB
  have hq : installLoop pl pf (remoteDict rs) dr g (B :: cs) rA wA =
      (.ok (false, rA), wA.addDir (pf ++ "/" ++ (B.path.getD B.name)),
        [Event.note ("Installing `" ++ B.name ++ "` project"),
         Event.mkdir (pf ++ "/" ++ (B.path.getD B.name)),
         Event.runGit (branchCloneArgs vB B.submodules u
           (pf ++ "/" ++ (B.path.getD B.name))) none,
         Event.note ("Error: Failed to clone project from `" ++ u ++ "`!"),
         Event.note ("Failed to install the `" ++ B.name ++
           "` project!")]) := by
    rw [installLoop_cons, hstepB]
  have happ := @installLoop_append pl pf (remoteDict rs) dr g ps
    (B :: cs) _ _ _ _ _ hpre
  rw [hq] at happ
  dsimp only at happ
  have hnoSaveA : ∀ s, Event.saveState s ∉ evsA := by
    intro s hmem
    have : Event.saveState s ∈ (installLoop pl pf (remoteDict rs) dr g ps []
        (ensurePackagesFolder pf w).1).2.2 := by
      rw [hpre]; exact hmem
    rcases installLoop_events this with ⟨a, c, h⟩ | ⟨m, h⟩ | ⟨q', h⟩ <;>
      exact Event.noConfusion h
  have hmain : main pl false true pf
      (some ⟨some (ps ++ B :: cs), dr, some rs⟩) g w =
      ⟨1,
       ⟨(wA.addDir (pf ++ "/" ++ (B.path.getD B.name))).dirs.filter
          (fun d => !underDir pf d), none⟩,
       (ensurePackagesFolder pf w).2 ++ (evsA ++
         [Event.note ("Installing `" ++ B.name ++ "` project"),
          Event.mkdir (pf ++ "/" ++ (B.path.getD B.name)),
          Event.runGit (branchCloneArgs vB B.submodules u
            (pf ++ "/" ++ (B.path.getD B.name))) none,
          Event.note ("Error: Failed to clone project from `" ++ u ++ "`!"),
          Event.note ("Failed to install the `" ++ B.name ++ "` project!"),
          Event.rmtree pf])⟩ := by
    rw [main_unfold pl false pf _ g w hstate]
    rw [process_unfold pl pf _ none g w (ps ++ B :: cs) rfl]
    rw [driftPhase_none]
    dsimp only
    rw [happ]
    dsimp only
    rw [if_neg (by simp), if_pos rfl]
    have hclean : clean_up pf
        (wA.addDir (pf ++ "/" ++ (B.path.getD B.name))) =
        (⟨(wA.addDir (pf ++ "/" ++ (B.path.getD B.name))).dirs.filter
            (fun d => !underDir pf d), none⟩,
         [Event.rmtree pf]) := by
      unfold clean_up
      rw [if_pos (show pf ∈
        (wA.addDir (pf ++ "/" ++ (B.path.getD B.name))).dirs from
        List.mem_cons_of_mem _ hpfA)]
      unfold World.rmtree
      rw [if_pos (prefix_statejson pf)]
    rw [hclean]
    simp
  refine ⟨hmain, ?_, ?_, ?_, ?_⟩
  · simp [List.mem_filter, underDir_self]
  · intro x
    simp [List.mem_filter, underDir_child]
  · intro s hmem
    rcases List.mem_append.mp hmem with hmem | hmem
    · exact Event.noConfusion (ensurePackagesFolder_events hmem)
    · rcases List.mem_append.mp hmem with hmem | hmem
      · exact hnoSaveA s hmem
      · simp at hmem
  · intro a c hmem
    rcases List.mem_append.mp hmem with hmem | hmem
    · exact Event.noConfusion (ensurePackagesFolder_events hmem)
    · rcases List.mem_append.mp hmem with hmem | hmem
      · exact Or.inl hmem
      · simp only [List.mem_cons, List.not_mem_nil, or_false] at hmem
        rcases hmem with h | h | h | h | h | h <;>
          first
          | exact Event.noConfusion h
          | (injection h with ha hc
             exact Or.inr ha)

/-- Witness for C1: a concrete three-project manifest `[projA, projB,
projC]` whose oracle fails exactly on projB's URL: projA is fetched, projB's
clone fails, projC is never touched, the whole cache is removed, no state
file is written, and the run exits 1. -/
theorem C1_witness :
    main "pl" false true "_pio"
        (some ⟨some
          [⟨"projA", some "modules/projA", some "va", none, none, none, none,
            false⟩,
           ⟨"projB", some "modules/projB", some "vb", none, none, none, none,
            false⟩,
           ⟨"projC", some "modules/projC", some "vc", none, none, none, none,
            false⟩], "origin", some [⟨"origin", some "https://r"⟩]⟩)
        (fun args _ => !(args.contains "https://r/projB.git"))
        ⟨[], none⟩ =
      ⟨1, ⟨[], none⟩,
        [Event.mkdir "_pio",
         Event.note "Installing `projA` project",
         Event.mkdir "_pio/modules/projA",
         Event.runGit ["git", "clone", "--branch", "va", "--depth", "1",
           "https://r/projA.git", "_pio/modules/projA"] none,
         Event.note "Installing `projB` project",
         Event.mkdir "_pio/modules/projB",
         Event.runGit ["git", "clone", "--branch", "vb", "--depth", "1",
           "https://r/projB.git", "_pio/modules/projB"] none,
         Event.note "Error: Failed to clone project from `https://r/projB.git`!",
         Event.note "Failed to install the `projB` project!",
         Event.rmtree "_pio"]⟩ := by
  have h := (C1_fail_fast "pl" "_pio" "origin"
    [⟨"projA", some "modules/projA", some "va", none, none, none, none,
      false⟩]
    [⟨"projC", some "modules/projC", some "vc", none, none, none, none,
      false⟩]
    ⟨"projB", some "modules/projB", some "vb", none, none, none, none,
      false⟩
    [⟨"origin", some "https://r"⟩]
    (fun args _ => !(args.contains "https://r/projB.git"))
    ⟨[], none⟩
    [("projA", "va")]
    ⟨["_pio/modules/projA", "_pio"], none⟩
    [Event.note "Installing `projA` project",
     Event.mkdir "_pio/modules/projA",
     Event.runGit ["git", "clone", "--branch", "va", "--depth", "1",
       "https://r/projA.git", "_pio/modules/projA"] none]
    "https://r/projB.git" "vb"
    rfl rfl rfl (by decide) (by decide) rfl rfl (by decide)
    (by decide) (by decide)).1
  exact h.trans (by decide)

/-! ## C7: idempotence of the second run -/

/-- **C7.**  (1) When the state file already exists and this is not a forced
secondary installation, the run short-circuits: exit 0, the world untouched,
no events at all (in particular no fetch and no mutation of the package
cache).  (2) Running the orchestrator twice in a row (normal mode, git
available, same manifest) performs zero fetch operations on the second run:
if the first run exits 0, no git command appears in the second run's
trace. -/
theorem C7_idempotence :
    (∀ (pl : String) (ga : Bool) (pf : Path) (wmo : Option WestManifest)
      (g : GitOracle) (w : World), w.stateFile.isSome = true →
      main pl false ga pf wmo g w = ⟨0, w, []⟩) ∧
    (∀ (pl pf : String) (wm : WestManifest) (g : GitOracle) (w : World),
      (main pl false true pf (some wm) g w).exitCode = 0 →
      ∀ a c, Event.runGit a c ∉
        (main pl false true pf (some wm) g
          (main pl false true pf (some wm) g w).world).events) := by
  constructor
  · intro pl ga pf wmo g w hsf
    exact main_short_circuit pl ga pf wmo g w hsf
  · intro pl pf wm g w h1 a c hmem
    by_cases hsf : w.stateFile.isSome
    · rw [main_short_circuit pl true pf (some wm) g w hsf] at hmem
      dsimp only at hmem
      rw [main_short_circuit pl true pf (some wm) g w hsf] at hmem
      simp at hmem
    · have hstate : w.stateFile = none :=
        Option.not_isSome_iff_eq_none.mp hsf
      have hrun := main_unfold pl false pf wm g w hstate
      rcases hproc : process_bundled_projects pl pf wm none g w with
        ⟨res, w1, evs⟩
      rw [hproc] at hrun
      rcases res with e | ⟨result, state⟩
      · rw [hrun] at h1
        exact absurd h1 (by simp)
      · dsimp only at hrun
        by_cases hc : result = true ∧ state ≠ []
        · rw [if_pos hc] at hrun
          rw [hrun] at hmem
          dsimp only [save_state] at hmem
          rw [main_short_circuit pl true pf (some wm) g _ (by rfl)] at hmem
          simp at hmem
        · rw [if_neg hc] at hrun
          by_cases hr : result = false
          · rw [if_pos hr] at hrun
            rw [hrun] at h1
            exact absurd h1 (by simp)
          · rw [if_neg hr] at hrun
            have hrt : result = true := by
              cases result
              · exact absurd rfl hr
              · rfl
            have hsnil : state = [] := by
              by_contra hs
              exact hc ⟨hrt, hs⟩
            subst hrt
            subst hsnil
            -- dissect the first run's processing
            rcases hpj : wm.projects with _ | ps
            · rw [process_none pl pf wm none g w hpj] at hproc
              exact absurd hproc (by simp)
            · rw [process_unfold pl pf wm none g w ps hpj,
                driftPhase_none] at hproc
              dsimp only at hproc
              rcases hrm : wm.remotes with _ | rs <;> rw [hrm] at hproc
              · exact absurd hproc (by simp)
              · dsimp only at hproc
                rcases hloop : installLoop pl pf (remoteDict rs)
                    wm.defaultsRemote g ps []
                    (ensurePackagesFolder pf w).1 with ⟨lres, w3, evs3⟩
                rw [hloop] at hproc
                dsimp only at hproc
                simp only [Prod.mk.injEq] at hproc
                obtain ⟨hres, hw3, hevs⟩ := hproc
                rw [hres] at hloop
                obtain ⟨-, hw3', hevs3⟩ := installLoop_true_nil hloop
                rw [hw3', hevs3] at hloop
                -- the second run repeats the same loop and does nothing
                rw [hrun] at hmem
                dsimp only at hmem
                have hw1 : w1 = (ensurePackagesFolder pf w).1 := by
                  rw [← hw3, hw3']
                subst hw1
                have hw1sf : (ensurePackagesFolder pf w).1.stateFile = none := by
                  rw [ensurePackagesFolder_stateFile]
                  exact hstate
                have hens2 : ensurePackagesFolder pf
                    (ensurePackagesFolder pf w).1 =
                    ((ensurePackagesFolder pf w).1, []) :=
                  ensurePackagesFolder_idem (ensurePackagesFolder_pf_mem pf w)
                rw [main_unfold pl false pf wm g _ hw1sf,
                  process_unfold pl pf wm none g _ ps hpj, hens2,
                  driftPhase_none] at hmem
                dsimp only at hmem
                rw [hrm] at hmem
                dsimp only at hmem
                rw [hloop] at hmem
                dsimp only at hmem
                rw [if_neg (by simp), if_neg (by simp)] at hmem
                simp at hmem

/-- Witness for C7: the short-circuit at a concrete world with a state file,
and the two-run property at a concrete one-project manifest whose first run
exits 0. -/
theorem C7_witness :
    main "pl" false true "_pio"
        (some ⟨some [⟨"projA", some "projA", some "v1", none, none, none,
          none, false⟩], "origin", some [⟨"origin", some "https://r"⟩]⟩)
        (fun _ _ => true)
        ⟨["_pio", "_pio/projA"], some [("projA", "v1")]⟩ =
      ⟨0, ⟨["_pio", "_pio/projA"], some [("projA", "v1")]⟩, []⟩ ∧
    (Event.runGit ["git", "clone", "--branch", "v1", "--depth", "1",
        "https://r/projA.git", "_pio/projA"] none ∉
      (main "pl" false true "_pio"
        (some ⟨some [⟨"projA", some "projA", some "v1", none, none, none,
          none, false⟩], "origin", some [⟨"origin", some "https://r"⟩]⟩)
        (fun _ _ => true)
        (main "pl" false true "_pio"
          (some ⟨some [⟨"projA", some "projA", some "v1", none, none, none,
            none, false⟩], "origin", some [⟨"origin", some "https://r"⟩]⟩)
          (fun _ _ => true) ⟨[], none⟩).world).events) := by
  constructor
  · exact C7_idempotence.1 "pl" true "_pio" _ _ _ rfl
  · exact C7_idempotence.2 "pl" "_pio" _ (fun _ _ => true) ⟨[], none⟩
      (by decide) _ none

end InstallDeps
